import Mathlib

/-!
FileService (apps/frontend/services/fileService.js)

A shallow embedding of the client-side file service: the type/size policy and
`validateFile`, the two-phase `uploadFile` with its registry of in-flight
transfers (`activeUploads`), the cancellation operations, `downloadFile`, the
error classification with its retry-eligibility judgment, and the pure helpers
(`getFileExtension`, `getFileType`, `formatFileSize`, `getPreviewUrl`).

Modelling conventions

* JavaScript strings are Lean strings; `split`, `pop` and `toLowerCase` are
  written structurally over the character list.  `toLowerCase` maps the
  letters `A`–`Z` and leaves every other character unchanged, which decides
  membership in the ASCII extension lists as the Unicode lowercasing does;
  `getFileExtensionWith` takes the host's lowercasing as a parameter.
* File sizes and HTTP statuses are natural numbers.
* An object with optional fields is a structure with `Option` fields; a
  missing field is `none`.
* Effects (Toast notifications, network requests, `cancel` calls on a
  cancellation source, `onProgress` calls) are appended to logs carried in the
  state, in the order in which the code performs them.
* Doubles are modelled on natural numbers: the product and the quotient of the
  progress percentage are rounded to nearest even at 53 bits; the value of
  `Math.floor(Math.log(bytes) / Math.log(1024))` is a parameter of
  `formatFileSizeWith`, since `Math.log` is implementation-approximated.
* The constructor `new URL(s)` of the host is a parameter; `encodeURIComponent`
  and the serializer of `URLSearchParams` are written out over UTF-8 bytes.
* `console.log` and `console.error` are not modelled.
-/

namespace FileService

/-! ## JavaScript string primitives -/

/-- The JavaScript `s.toLowerCase()` restricted to the letters `A`–`Z`: it agrees
with `String.prototype.toLowerCase` on ASCII strings and is used where the
result is looked up in the ASCII extension lists; `getFileExtensionWith` takes
the host's Unicode lowercasing as a parameter. -/
def toLowerCase (s : String) : String :=
  String.mk (s.data.map Char.toLower)

/-- The JavaScript `s.split(sep)` for a one-character separator, on character
lists.  The result is never empty: a string without the separator is returned
as its own single part. -/
def splitChars (sep : Char) : List Char → List (List Char)
  | [] => [[]]
  | c :: cs =>
    match splitChars sep cs with
    | [] => [[c]]
    | p :: ps => if c = sep then [] :: p :: ps else (c :: p) :: ps

/-- The JavaScript `s.split(sep)` for a one-character separator. -/
def split (s : String) (sep : Char) : List String :=
  (splitChars sep s.data).map String.mk

/-- The JavaScript `a || b` on an optional string: an absent or empty string is
falsy. -/
def orElse (a : Option String) (b : String) : String :=
  match a with
  | some s => if s = "" then b else s
  | none => b

/-- Substring test: `needle` occurs in `hay`. -/
def containsStr (hay needle : String) : Bool :=
  decide (needle.data <:+: hay.data)

/-! ## Policy table (constructor) -/

/-- One entry of `allowedTypes`. -/
structure TypeConfig where
  extensions : List String
  mimeTypes : List String
  maxSize : Nat
  name : String
  deriving DecidableEq, Repr

/-- The field `this.uploadLimit = 50 * 1024 * 1024`. -/
def uploadLimit : Nat := 50 * 1024 * 1024

/-- The field `this.retryAttempts`. -/
def retryAttempts : Nat := 3

/-- The field `this.retryDelay`. -/
def retryDelay : Nat := 1000

/-- The `image` entry of `allowedTypes`. -/
def imageConfig : TypeConfig :=
  { extensions := [".jpg", ".jpeg", ".png", ".gif", ".webp"]
    mimeTypes := ["image/jpeg", "image/png", "image/gif", "image/webp"]
    maxSize := 10 * 1024 * 1024
    name := "이미지" }

/-- The `document` entry of `allowedTypes`. -/
def documentConfig : TypeConfig :=
  { extensions := [".pdf"]
    mimeTypes := ["application/pdf"]
    maxSize := 20 * 1024 * 1024
    name := "PDF 문서" }

/-- The field `this.allowedTypes`, as its entries in insertion order (the order
of `Object.entries` and `Object.values`). -/
def allowedTypes : List (String × TypeConfig) :=
  [("image", imageConfig), ("document", documentConfig)]

/-! ## Pure helpers -/

/-- The method `getFileExtension(filename)`: `''` for an absent or empty name and
for a name without `.`, else `.` followed by the lowercased last part. -/
def getFileExtension (filename : Option String) : String :=
  match filename with
  | none => ""
  | some name =>
    if name = "" then ""
    else
      let parts := split name '.'
      if parts.length > 1 then "." ++ toLowerCase (parts.getLast?.getD "") else ""

/-- The method `getFileExtension(filename)` with the host's
`String.prototype.toLowerCase` given as `lower`. -/
def getFileExtensionWith (lower : String → String) (filename : Option String) : String :=
  match filename with
  | none => ""
  | some name =>
    if name = "" then ""
    else
      let parts := split name '.'
      if parts.length > 1 then "." ++ lower (parts.getLast?.getD "") else ""

/-- Floor of the base-1024 logarithm, by repeated division; `fuel` bounds the
number of divisions. -/
def log1024Aux : Nat → Nat → Nat
  | 0, _ => 0
  | fuel + 1, n => if n < 1024 then 0 else log1024Aux fuel (n / 1024) + 1

/-- The floor of the base-1024 logarithm of a positive integer, exactly.  The code
computes `Math.floor(Math.log(bytes) / Math.log(1024))` in doubles, which gives
this value at the sizes that `validateFile` formats (10, 20 and 50 MiB) but not
everywhere: `formatFileSizeWith` takes the double computation as a parameter. -/
def floorLog1024 (bytes : Nat) : Nat :=
  log1024Aux bytes bytes

/-- The expression `parseFloat(x.toFixed(2))` printed by a template literal, for
`x = h / 100`: the decimal numeral of `h / 100` without trailing zeros. -/
def showHundredths (h : Nat) : String :=
  let q := h / 100
  let r := h % 100
  if r = 0 then toString q
  else if r % 10 = 0 then toString q ++ "." ++ toString (r / 10)
  else if r < 10 then toString q ++ ".0" ++ toString r
  else toString q ++ "." ++ toString r

/-- The array `units` of `formatFileSize`. -/
def units : List String := ["B", "KB", "MB", "GB", "TB"]

/-- The method `formatFileSize(bytes)` on a natural byte count, as `validateFile`
calls it, with the index taken as the exact floor of the logarithm.  The
quotient `bytes / 1024^i` is rounded half-up to two decimals, as `toFixed(2)`
does on the exactly represented quotient; an index past the end of `units`
prints as `undefined`. -/
def formatFileSize (bytes : Nat) : String :=
  if bytes = 0 then "0 B"
  else
    let i := floorLog1024 bytes
    showHundredths ((200 * bytes + 1024 ^ i) / (2 * 1024 ^ i)) ++ " " ++ (units.get? i).getD "undefined"

/-! ## Data model -/

/-- A browser `File`, as far as the service reads it. -/
structure File where
  name : String
  type : String
  size : Nat
  deriving DecidableEq, Repr

/-- The object `fileData` that `uploadFile` submits and echoes back. -/
structure FileData where
  originalName : String
  mimeType : String
  size : Nat
  deriving DecidableEq, Repr

/-- The `response` of an error: its `status` and `data?.message`. -/
structure ErrorResponse where
  status : Nat
  message : Option String := none
  deriving DecidableEq, Repr

/-- A thrown JavaScript value, as far as the service inspects it:
`isCancel(error)`, `axios.isAxiosError(error)`, `error.code`, `error.response`
and `error.message`. -/
structure JsError where
  cancel : Bool := false
  axiosError : Bool := false
  code : Option String := none
  response : Option ErrorResponse := none
  message : Option String := none
  deriving DecidableEq, Repr

/-- The result objects of the service: `{ success, message, file, error,
canceledCount }`, each field but `success` optional. -/
structure Result where
  success : Bool
  message : Option String := none
  file : Option FileData := none
  error : Option JsError := none
  canceledCount : Option Nat := none
  deriving DecidableEq, Repr

/-- How a call settles: it returns a result or throws. -/
inductive Outcome where
  | returned (result : Result)
  | thrown (error : JsError)
  deriving DecidableEq, Repr

/-- How an awaited promise settles. -/
inductive Settled (α : Type) where
  | resolved (value : α)
  | rejected (error : JsError)
  deriving DecidableEq, Repr

/-- A cancellation source made by `CancelToken.source()`, known by its
identity. -/
structure CancelSource where
  id : Nat
  deriving DecidableEq, Repr

/-- The value of `Math.round(x)`: a finite integer, `Infinity` or `NaN`. -/
inductive JsNumber where
  | finite (n : Nat)
  | infinity
  | nan
  deriving DecidableEq, Repr

/-- A progress event of the PUT: `loaded` and `total` (absent when the length is
not computable). -/
structure ProgressEvent where
  loaded : Nat
  total : Option Nat
  deriving DecidableEq, Repr

/-- The object the registration `fetch` resolves with, as far as `uploadFile`
reads it: `status`, `s3Url` and `data?.message`. -/
structure FetchResponse where
  status : Nat
  s3Url : Option String := none
  message : Option String := none
  deriving DecidableEq, Repr

/-- The object the PUT resolves with. -/
structure AxiosResponse where
  status : Nat
  deriving DecidableEq, Repr

/-- A network request issued by the service. -/
inductive Request where
  | post (url : String) (body : FileData)
  | put (url : Option String) (file : File) (contentType : String) (cancelToken : CancelSource)
  deriving DecidableEq, Repr

/-- The `Map` held in `activeUploads`: its entries in insertion order. -/
abbrev Registry := List (String × CancelSource)

/-- The entries of a `Map` have pairwise distinct keys. -/
def Registry.WellFormed (m : Registry) : Prop :=
  (m.map Prod.fst).Nodup

instance (m : Registry) : Decidable m.WellFormed := by
  unfold Registry.WellFormed; infer_instance

/-- The JavaScript `map.get(key)`. -/
def mapGet : Registry → String → Option CancelSource
  | [], _ => none
  | (k, v) :: rest, key => if k = key then some v else mapGet rest key

/-- The JavaScript `map.set(key, value)`: an existing key keeps its position, a
new key is appended. -/
def mapSet : Registry → String → CancelSource → Registry
  | [], key, value => [(key, value)]
  | (k, v) :: rest, key, value =>
    if k = key then (key, value) :: rest else (k, v) :: mapSet rest key value

/-- The JavaScript `map.delete(key)`. -/
def mapDelete (m : Registry) (key : String) : Registry :=
  m.filter (fun e => e.1 ≠ key)

/-- The state the service works on: the registry `activeUploads` and the logs
of the effects performed. -/
structure State where
  activeUploads : Registry := []
  toasts : List String := []
  requests : List Request := []
  cancels : List (CancelSource × String) := []
  progress : List JsNumber := []
  deriving DecidableEq, Repr

/-- The call `Toast.error(message)`. -/
def toastError (message : String) (s : State) : State :=
  { s with toasts := s.toasts ++ [message] }

/-- The call `source.cancel(message)`. -/
def cancelSource (source : CancelSource) (message : String) (s : State) : State :=
  { s with cancels := s.cancels ++ [(source, message)] }

/-! ## validateFile -/

/-- The loop of `validateFile` over `Object.values(this.allowedTypes)`: the first
entry whose `mimeTypes` includes the MIME type (`isAllowedType`, `maxTypeSize`
and `typeConfig` are set together, then `break`), or `none` when
`isAllowedType` stays false. -/
def findTypeConfig (mime : String) : List TypeConfig → Option TypeConfig
  | [] => none
  | config :: rest =>
    if config.mimeTypes.contains mime then some config else findTypeConfig mime rest

/-- The method `validateFile(file)`; the state records the Toast
notifications. -/
def validateFile (file : Option File) (s : State) : Result × State :=
  match file with
  | none =>
    let message := "파일이 선택되지 않았습니다."
    ({ success := false, message := some message }, toastError message s)
  | some f =>
    if f.size > uploadLimit then
      let message := "파일 크기는 " ++ formatFileSize uploadLimit ++ "를 초과할 수 없습니다."
      ({ success := false, message := some message }, toastError message s)
    else
      match findTypeConfig f.type (allowedTypes.map Prod.snd) with
      | none =>
        let message := "지원하지 않는 파일 형식입니다."
        ({ success := false, message := some message }, toastError message s)
      | some typeConfig =>
        if f.size > typeConfig.maxSize then
          let message :=
            typeConfig.name ++ " 파일은 " ++ formatFileSize typeConfig.maxSize ++ "를 초과할 수 없습니다."
          ({ success := false, message := some message }, toastError message s)
        else
          let ext := getFileExtension (some f.name)
          if !(typeConfig.extensions.contains (toLowerCase ext)) then
            let message := "파일 확장자가 올바르지 않습니다."
            ({ success := false, message := some message }, toastError message s)
          else
            ({ success := true }, s)

/-! ## Error classification -/

/-- The method `handleUploadError(error)`. -/
def handleUploadError (error : JsError) : Result :=
  if error.code = some "ECONNABORTED" then
    { success := false, message := some "파일 업로드 시간이 초과되었습니다." }
  else if error.axiosError then
    let status := error.response.map (fun r => r.status)
    let message := error.response.bind (fun r => r.message)
    match status with
    | some 400 => { success := false, message := some (orElse message "잘못된 요청입니다.") }
    | some 401 => { success := false, message := some "인증이 필요합니다." }
    | some 413 => { success := false, message := some "파일이 너무 큽니다." }
    | some 415 => { success := false, message := some "지원하지 않는 파일 형식입니다." }
    | some 500 => { success := false, message := some "서버 오류가 발생했습니다." }
    | _ => { success := false, message := some (orElse message "파일 업로드에 실패했습니다.") }
  else
    { success := false
      message := some (orElse error.message "알 수 없는 오류가 발생했습니다.")
      error := some error }

/-- The method `isRetryableError(error)`. -/
def isRetryableError (error : JsError) : Bool :=
  match error.response with
  | none => true
  | some response => [408, 429, 500, 502, 503, 504].contains response.status

/-! ## uploadFile -/

/-- What the surroundings of one `uploadFile` call supply: the environment
variable `NEXT_PUBLIC_API_URL`, how the registration `fetch` and the PUT settle,
the source returned by `CancelToken.source()`, the progress events delivered
during the PUT, and what other code does to `activeUploads` while the call is
suspended at each of its three `await`s. -/
structure UploadEnv where
  apiUrl : Option String := none
  registration : Settled FetchResponse
  source : CancelSource
  progressEvents : List ProgressEvent := []
  put : Settled AxiosResponse
  afterValidate : Registry → Registry := id
  duringRegistration : Registry → Registry := id
  duringPut : Registry → Registry := id

/-- A value interpolated into a template literal: `undefined` prints as the
word. -/
def interpolate (value : Option String) : String :=
  value.getD "undefined"

/-- Other code runs on `activeUploads` while the call is suspended. -/
def suspended (others : Registry → Registry) (s : State) : State :=
  { s with activeUploads := others s.activeUploads }

/-- Round to nearest, ties to even, of the quotient `n / d` of two naturals: the
rounding of IEEE 754 arithmetic. -/
def roundHalfEven (n d : Nat) : Nat :=
  let q := n / d
  let r := n % d
  if 2 * r < d then q else if d < 2 * r then q + 1 else if q % 2 = 0 then q else q + 1

/-- The least `s` from `s` on, within `fuel` steps, with `2^52 * t ≤ a * 2^s`: the
scaling that brings the quotient `a / t` into `[2^52, 2^53)`. -/
def scaleUp : Nat → Nat → Nat → Nat → Nat
  | 0, s, _, _ => s
  | fuel + 1, s, a, t => if 2 ^ 52 * t ≤ a * 2 ^ s then s else scaleUp fuel (s + 1) a t

/-- The least `j` from `j` on, within `fuel` steps, with `a < 2^53 * t * 2^j`. -/
def scaleDown : Nat → Nat → Nat → Nat → Nat
  | 0, j, _, _ => j
  | fuel + 1, j, a, t => if a < 2 ^ 53 * t * 2 ^ j then j else scaleDown fuel (j + 1) a t

/-- The double `a / t` of JavaScript for naturals `a` and `t > 0`, as a numerator
and a power-of-two denominator: the quotient is scaled to a 53-bit significand
and rounded to nearest even.  Overflow and underflow (counts from about 2^1000)
are not modelled; the counts of a progress event are unsigned 64-bit. -/
def doubleDiv (a t : Nat) : Nat × Nat :=
  if a = 0 then (0, 1)
  else if a < 2 ^ 53 * t then
    let s := scaleUp (t + 53) 0 a t
    (roundHalfEven (a * 2 ^ s) t, 2 ^ s)
  else
    let j := scaleDown a 1 a t
    (roundHalfEven a (t * 2 ^ j) * 2 ^ j, 1)

/-- The double nearest to a natural, which is what a product of two integer
doubles evaluates to: the natural itself below 2^53. -/
def doubleOfNat (n : Nat) : Nat :=
  (doubleDiv n 1).1 / (doubleDiv n 1).2

/-- The JavaScript `Math.round(x)` of a non-negative `x = num / den`: the floor of
`x + 1/2`. -/
def mathRound (x : Nat × Nat) : Nat :=
  (2 * x.1 + x.2) / (2 * x.2)

/-- The expression `Math.round((progressEvent.loaded * 100) / progressEvent.total)`
in double arithmetic: the product and the quotient are each rounded to a double,
then `Math.round` is applied; `NaN` for an absent total and for `0 / 0`,
`Infinity` for a positive count over zero. -/
def percentCompleted (progressEvent : ProgressEvent) : JsNumber :=
  match progressEvent.total with
  | none => JsNumber.nan
  | some 0 => if progressEvent.loaded = 0 then JsNumber.nan else JsNumber.infinity
  | some total =>
    JsNumber.finite (mathRound (doubleDiv (doubleOfNat (progressEvent.loaded * 100)) total))

/-- The handler `onUploadProgress`, run on each progress event of the PUT;
`onProgress` tells whether the caller passed a callback. -/
def onUploadProgress (onProgress : Bool) (events : List ProgressEvent) (s : State) : State :=
  if onProgress then { s with progress := s.progress ++ events.map percentCompleted } else s

/-- String-valued bindings that a free identifier of the module resolves to.  The
module declares no `uuid` and the host defines no such global: the table is
empty. -/
def freeBindings : List (String × String) := []

/-- The `ReferenceError` thrown when an undeclared identifier is evaluated. -/
def referenceError (identifier : String) : JsError :=
  { message := some (identifier ++ " is not defined") }

/-- The `TypeError` thrown when a property of `null` or `undefined` is read. -/
def typeError : JsError :=
  { message := some "Cannot read properties of undefined" }

/-- Evaluation of a free identifier. -/
def resolveFree (identifier : String) : Except JsError String :=
  match freeBindings.lookup identifier with
  | some value => Except.ok value
  | none => Except.error (referenceError identifier)

/-- The error `new Error('Authentication expired. Please login again.')`. -/
def authenticationExpired : JsError :=
  { message := some "Authentication expired. Please login again." }

/-- The `catch` block of `uploadFile`. -/
def uploadCatch (file : File) (error : JsError) (s : State) : Outcome × State :=
  let s := { s with activeUploads := mapDelete s.activeUploads file.name }
  if error.cancel then
    (Outcome.returned { success := false, message := some "업로드가 취소되었습니다." }, s)
  else if error.response.map (fun r => r.status) = some 401 then
    (Outcome.thrown authenticationExpired, s)
  else
    (Outcome.returned (handleUploadError error), s)

/-- The `try` block of `uploadFile`, entered once validation has passed. -/
def uploadTry (env : UploadEnv) (file : File) (onProgress : Bool) (s : State) : Outcome × State :=
  let fileData : FileData :=
    { originalName := file.name, mimeType := file.type, size := file.size }
  let s := { s with
    requests := s.requests ++ [Request.post (interpolate env.apiUrl ++ "/api/files/upload") fileData] }
  let s := suspended env.duringRegistration s
  match env.registration with
  | Settled.rejected error => uploadCatch file error s
  | Settled.resolved response =>
    let uploadUrl := response.s3Url
    let source := env.source
    let s := { s with activeUploads := mapSet s.activeUploads file.name source }
    let s := { s with requests := s.requests ++ [Request.put uploadUrl file file.type source] }
    let s := onUploadProgress onProgress env.progressEvents s
    let s := suspended env.duringPut s
    match env.put with
    | Settled.rejected error => uploadCatch file error s
    | Settled.resolved _uploadResponse =>
      match resolveFree "uuid" with
      | Except.error error => uploadCatch file error s
      | Except.ok uuid =>
        let s := { s with activeUploads := mapDelete s.activeUploads uuid }
        if response.status < 200 ∨ response.status ≥ 300 then
          (Outcome.returned
            { success := false, message := some (orElse response.message "파일 업로드에 실패했습니다.") }, s)
        else
          (Outcome.returned { success := true, file := some fileData }, s)

/-- The method `uploadFile(file, onProgress, token, sessionId)`; `token` and
`sessionId` are not read.  An absent file never passes validation; were it to,
reading `file.name` would throw inside the `try` block and again inside the
`catch` block. -/
def uploadFile (env : UploadEnv) (file : Option File) (onProgress : Bool) (s : State) :
    Outcome × State :=
  let validation := validateFile file s
  let validationResult := validation.1
  let s := suspended env.afterValidate validation.2
  if !validationResult.success then (Outcome.returned validationResult, s)
  else
    match file with
    | none => (Outcome.thrown typeError, s)
    | some f => uploadTry env f onProgress s

/-! ## Cancellation -/

/-- The method `cancelUpload(filename)`. -/
def cancelUpload (filename : String) (s : State) : Result × State :=
  match mapGet s.activeUploads filename with
  | some source =>
    let s := cancelSource source "Upload canceled by user" s
    let s := { s with activeUploads := mapDelete s.activeUploads filename }
    ({ success := true, message := some "업로드가 취소되었습니다." }, s)
  | none =>
    ({ success := false, message := some "취소할 업로드를 찾을 수 없습니다." }, s)

/-- The loop `for (const [filename, source] of this.activeUploads)` of
`cancelAllUploads`, over the entries not yet visited.  The iterator of a `Map`
is live: an entry deleted before its turn is skipped. -/
def cancelAllLoop : List (String × CancelSource) → State → Nat → State × Nat
  | [], s, canceledCount => (s, canceledCount)
  | (filename, source) :: rest, s, canceledCount =>
    if (mapGet s.activeUploads filename).isSome then
      let s := cancelSource source "All uploads canceled" s
      let s := { s with activeUploads := mapDelete s.activeUploads filename }
      cancelAllLoop rest s (canceledCount + 1)
    else
      cancelAllLoop rest s canceledCount

/-- The method `cancelAllUploads()`. -/
def cancelAllUploads (s : State) : Result × State :=
  let loop := cancelAllLoop s.activeUploads s 0
  let canceledCount := loop.2
  ({ success := true
     message := some (toString canceledCount ++ "개의 업로드가 취소되었습니다.")
     canceledCount := some canceledCount }, loop.1)

/-! ## Download error classification and type lookup -/

/-- The method `handleDownloadError(error)`. -/
def handleDownloadError (error : JsError) : Result :=
  if error.code = some "ECONNABORTED" then
    { success := false, message := some "파일 다운로드 시간이 초과되었습니다." }
  else if error.axiosError then
    let status := error.response.map (fun r => r.status)
    let message := error.response.bind (fun r => r.message)
    match status with
    | some 404 => { success := false, message := some "파일을 찾을 수 없습니다." }
    | some 403 => { success := false, message := some "파일에 접근할 권한이 없습니다." }
    | some 400 => { success := false, message := some (orElse message "잘못된 요청입니다.") }
    | some 500 => { success := false, message := some "서버 오류가 발생했습니다." }
    | _ => { success := false, message := some (orElse message "파일 다운로드에 실패했습니다.") }
  else
    { success := false
      message := some (orElse error.message "알 수 없는 오류가 발생했습니다.")
      error := some error }

/-- The default message of `handleUploadError` for a status: the rows 400, 401,
413, 415, 500 and the generic failure message for any other status. -/
def uploadDefaultMessage (status : Nat) : String :=
  if status = 400 then "잘못된 요청입니다."
  else if status = 401 then "인증이 필요합니다."
  else if status = 413 then "파일이 너무 큽니다."
  else if status = 415 then "지원하지 않는 파일 형식입니다."
  else if status = 500 then "서버 오류가 발생했습니다."
  else "파일 업로드에 실패했습니다."

/-- The default message of `handleDownloadError` for a status: the rows 400, 403,
404, 500 and the generic failure message for any other status. -/
def downloadDefaultMessage (status : Nat) : String :=
  if status = 400 then "잘못된 요청입니다."
  else if status = 403 then "파일에 접근할 권한이 없습니다."
  else if status = 404 then "파일을 찾을 수 없습니다."
  else if status = 500 then "서버 오류가 발생했습니다."
  else "파일 다운로드에 실패했습니다."

/-- The loop of `getFileType` over `Object.entries(this.allowedTypes)`: the key of
the first entry whose `extensions` includes `ext`, else `unknown`. -/
def getFileTypeLoop (ext : String) : List (String × TypeConfig) → String
  | [] => "unknown"
  | (type, config) :: rest =>
    if config.extensions.contains ext then type else getFileTypeLoop ext rest

/-- The method `getFileType(filename)`. -/
def getFileType (filename : Option String) : String :=
  match filename with
  | none => "unknown"
  | some name =>
    if name = "" then "unknown"
    else getFileTypeLoop (toLowerCase (getFileExtension (some name))) allowedTypes

/-- The method `formatFileSize(bytes)` on an argument that may be absent, with the
host's double computation `Math.floor(Math.log(bytes) / Math.log(1024))` given
as `logIndex bytes` (`Math.log` is implementation-approximated).  The power
`Math.pow(1024, i)` and the quotient by it are exact for byte counts below
2^53, and `toFixed(2)` rounds the exact quotient half-up. -/
def formatFileSizeWith (logIndex : Nat → Nat) (bytes : Option Nat) : String :=
  match bytes with
  | none => "0 B"
  | some b =>
    if b = 0 then "0 B"
    else
      let i := logIndex b
      showHundredths ((200 * b + 1024 ^ i) / (2 * 1024 ^ i)) ++ " " ++ (units.get? i).getD "undefined"

/-- The fraction part that `showHundredths` prints for `r` hundredths. -/
def fractionText (r : Nat) : String :=
  if r = 0 then ""
  else if r % 10 = 0 then "." ++ toString (r / 10)
  else if r < 10 then ".0" ++ toString r
  else "." ++ toString r

/-- Reading of a decimal digit string: the natural number it writes, `none` for
an empty string or a character that is no digit. -/
def digitsValue (cs : List Char) : Option Nat :=
  if cs = [] then none
  else cs.foldl
    (fun acc c => acc.bind (fun n => if c.isDigit then some (10 * n + (c.toNat - 48)) else none))
    (some 0)

/-- Reading of a decimal numeral `ddd` or `ddd.ddd`: the rational number it
writes. -/
def decimalValue (s : String) : Option ℚ :=
  match splitChars '.' s.data with
  | [whole] =>
    match digitsValue whole with
    | some n => some (n : ℚ)
    | none => none
  | [whole, fraction] =>
    match digitsValue whole, digitsValue fraction with
    | some n, some f => some ((n : ℚ) + (f : ℚ) / 10 ^ fraction.length)
    | _, _ => none
  | _ => none

/-! ## Preview URL -/

/-- The UTF-8 bytes of a character. -/
def utf8Bytes (c : Char) : List Nat :=
  let n := c.toNat
  if n < 128 then [n]
  else if n < 2048 then [192 + n / 64, 128 + n % 64]
  else if n < 65536 then [224 + n / 4096, 128 + n / 64 % 64, 128 + n % 64]
  else [240 + n / 262144, 128 + n / 4096 % 64, 128 + n / 64 % 64, 128 + n % 64]

/-- The upper-case hexadecimal digit of a value below 16. -/
def hexDigit (n : Nat) : Char :=
  if n < 10 then Char.ofNat (48 + n) else Char.ofNat (55 + n)

/-- The escape `%XX` of a byte. -/
def percentByte (b : Nat) : List Char :=
  ['%', hexDigit (b / 16), hexDigit (b % 16)]

/-- The characters `encodeURIComponent` leaves as they are: ASCII letters and
digits and `- _ . ! ~ * ' ( )`. -/
def uriUnreserved (c : Char) : Bool :=
  c.isAlphanum || [45, 95, 46, 33, 126, 42, 39, 40, 41].contains c.toNat

/-- The JavaScript `encodeURIComponent(s)`. -/
def encodeURIComponent (s : String) : String :=
  String.mk (s.data.flatMap (fun c =>
    if uriUnreserved c then [c] else (utf8Bytes c).flatMap percentByte))

/-- One byte under the `application/x-www-form-urlencoded` serializer used by
`URLSearchParams`: a space becomes `+`, ASCII letters, digits and `* - . _` stay,
any other byte is escaped. -/
def formByte (b : Nat) : List Char :=
  if b = 32 then ['+']
  else if b < 128 ∧ ((Char.ofNat b).isAlphanum || [42, 45, 46, 95].contains b) then [Char.ofNat b]
  else percentByte b

/-- A name or value serialized by `URLSearchParams`. -/
def formSerialize (s : String) : String :=
  String.mk (s.data.flatMap (fun c => (utf8Bytes c).flatMap formByte))

/-- A parsed `URL`: its serialization up to the query, the list held by
`searchParams`, and its fragment with the leading `#` (empty when there is
none). -/
structure Url where
  base : String
  searchParams : List (String × String) := []
  hash : String := ""
  deriving DecidableEq, Repr

/-- The call `url.searchParams.append(name, value)`. -/
def Url.append (url : Url) (name value : String) : Url :=
  { url with searchParams := url.searchParams ++ [(name, value)] }

/-- The query string written from `searchParams`. -/
def serializeParams (params : List (String × String)) : String :=
  "&".intercalate (params.map (fun p => formSerialize p.1 ++ "=" ++ formSerialize p.2))

/-- The call `url.toString()`. -/
def Url.toString (url : Url) : String :=
  if url.searchParams = [] then url.base ++ url.hash
  else url.base ++ "?" ++ serializeParams url.searchParams ++ url.hash

/-- The value of a hexadecimal digit. -/
def hexValue (c : Char) : Option Nat :=
  let n := c.toNat
  if 48 ≤ n ∧ n ≤ 57 then some (n - 48)
  else if 65 ≤ n ∧ n ≤ 70 then some (n - 55)
  else if 97 ≤ n ∧ n ≤ 102 then some (n - 87)
  else none

/-- Percent-decoding, once, to bytes: each `%XX` is one byte, any other character
stands for its UTF-8 bytes. -/
def percentDecode : List Char → List Nat
  | [] => []
  | [c] => utf8Bytes c
  | [c, d] => utf8Bytes c ++ utf8Bytes d
  | c :: h :: l :: rest =>
    if c = '%' then
      match hexValue h, hexValue l with
      | some hi, some lo => (16 * hi + lo) :: percentDecode rest
      | _, _ => utf8Bytes c ++ percentDecode (h :: l :: rest)
    else utf8Bytes c ++ percentDecode (h :: l :: rest)

/-- The UTF-8 bytes of a string. -/
def stringBytes (s : String) : List Nat :=
  s.data.flatMap utf8Bytes

deriving instance DecidableEq for Except

/-- A file reference passed to `getPreviewUrl`. -/
structure FileRef where
  filename : Option String
  deriving DecidableEq, Repr

/-- The JavaScript `!value` on an optional string. -/
def isFalsy (value : Option String) : Bool :=
  match value with
  | none => true
  | some s => decide (s = "")

/-- The `TypeError` thrown by `new URL(s)` on a string that is no absolute URL. -/
def invalidUrlError : JsError :=
  { code := some "ERR_INVALID_URL", message := some "Invalid URL" }

/-- The method `getPreviewUrl(file, token, sessionId, withAuth)`.  `apiUrl` is
`process.env.NEXT_PUBLIC_API_URL` and `parseUrl` the constructor `new URL(s)` of
the host, `none` when it throws. -/
def getPreviewUrl (apiUrl : Option String) (parseUrl : String → Option Url)
    (file : Option FileRef) (token sessionId : Option String) (withAuth : Bool) :
    Except JsError String :=
  match file.bind (fun f => f.filename) with
  | none => Except.ok ""
  | some filename =>
    if filename = "" then Except.ok ""
    else
      let baseUrl := interpolate apiUrl ++ "/api/files/view/" ++ filename
      if !withAuth then Except.ok baseUrl
      else if isFalsy token || isFalsy sessionId then Except.ok baseUrl
      else
        match parseUrl baseUrl with
        | none => Except.error invalidUrlError
        | some url =>
          let url := url.append "token" (encodeURIComponent (interpolate token))
          let url := url.append "sessionId" (encodeURIComponent (interpolate sessionId))
          Except.ok url.toString

/-! ## downloadFile -/

/-- The response of the download request: its `content-type` header. -/
structure BlobResponse where
  contentType : Option String := none
  deriving DecidableEq, Repr

/-- What the surroundings of one `downloadFile` call supply: how the GET settles
and the object URL returned by `window.URL.createObjectURL`. -/
structure DownloadEnv where
  get : Settled BlobResponse
  blobUrl : String := "blob:1"

/-- The anchor element clicked to save the file. -/
structure SavedLink where
  href : String
  download : String
  blobType : String
  deriving DecidableEq, Repr

/-- The effects of one `downloadFile` call: the URLs requested and the links
clicked. -/
structure DownloadLog where
  requests : List String := []
  saved : List SavedLink := []
  deriving DecidableEq, Repr

/-- The `catch` block of `downloadFile`. -/
def downloadCatch (error : JsError) (log : DownloadLog) : Outcome × DownloadLog :=
  if error.response.map (fun r => r.status) = some 401 then
    (Outcome.thrown authenticationExpired, log)
  else
    (Outcome.returned (handleDownloadError error), log)

/-- The method `downloadFile(filename, originalname, token, sessionId)`; `token`
and `sessionId` are not read.  The delayed `revokeObjectURL` is not modelled. -/
def downloadFile (env : DownloadEnv) (filename originalname : Option String) :
    Outcome × DownloadLog :=
  let fileUrl := "https://dypusta48vkr4.cloudfront.net/chat/" ++ interpolate filename
  let log : DownloadLog := { requests := [fileUrl] }
  match env.get with
  | Settled.rejected error => downloadCatch error log
  | Settled.resolved response =>
    let blobType := orElse response.contentType "application/octet-stream"
    let blobUrl := env.blobUrl
    let download : Except JsError String :=
      if isFalsy originalname then resolveFree "fileId" else Except.ok (interpolate originalname)
    match download with
    | Except.error error => downloadCatch error log
    | Except.ok name =>
      let log := { log with saved := log.saved ++ [{ href := blobUrl, download := name, blobType := blobType }] }
      (Outcome.returned { success := true }, log)

/-! ## Sample inputs -/

/-- A 5 MiB PNG image named `photo.png`. -/
def samplePng : File :=
  { name := "photo.png", type := "image/png", size := 5 * 1024 * 1024 }

/-- An upload whose registration and PUT both resolve with status 200. -/
def resolvedEnv : UploadEnv :=
  { apiUrl := some "https://api.example"
    registration := Settled.resolved { status := 200, s3Url := some "https://store.example/key" }
    source := { id := 7 }
    put := Settled.resolved { status := 200 } }

/-- An upload canceled during the PUT: `cancelUpload` has removed the entry and
the PUT rejects with a cancellation. -/
def canceledEnv : UploadEnv :=
  { registration := Settled.resolved { status := 200 }
    source := { id := 7 }
    put := Settled.rejected { cancel := true, message := some "Upload canceled by user" }
    duringPut := fun m => mapDelete m "photo.png" }

/-- An upload whose registration is answered with status 401 and whose PUT
resolves. -/
def registration401Env : UploadEnv :=
  { registration := Settled.resolved { status := 401 }
    source := { id := 7 }
    put := Settled.resolved { status := 200 } }

/-- An upload whose registration is answered with status 401 and whose PUT fails
without a response. -/
def registration401NetworkEnv : UploadEnv :=
  { registration := Settled.resolved { status := 401 }
    source := { id := 7 }
    put := Settled.rejected
      { axiosError := true, code := some "ERR_NETWORK", message := some "Network Error" } }

/-- A state with two uploads in flight, `a.png` and `b.pdf`. -/
def twoUploads : State :=
  { activeUploads := [("a.png", { id := 1 }), ("b.pdf", { id := 2 })] }

/-- A constructor `new URL(s)` for strings that are already the serialization of
an absolute URL without query and fragment. -/
def plainUrl (s : String) : Option Url :=
  some { base := s }

/-- A lowercasing that maps `ÉXT` to `éxt`, as the host does, and is the ASCII
one elsewhere. -/
def sampleLower (s : String) : String :=
  if s = "ÉXT" then "éxt" else toLowerCase s

/-! ## Registry lemmas -/

theorem mapGet_mapDelete_self (m : Registry) (key : String) :
    mapGet (mapDelete m key) key = none := by
  induction m with
  | nil => rfl
  | cons e rest ih =>
    obtain ⟨k, v⟩ := e
    by_cases h : k = key
    · simpa [mapDelete, h] using ih
    · simpa [mapDelete, mapGet, h] using ih

theorem mapGet_mapDelete_of_ne (m : Registry) (key other : String) (h : other ≠ key) :
    mapGet (mapDelete m key) other = mapGet m other := by
  induction m with
  | nil => rfl
  | cons e rest ih =>
    obtain ⟨k, v⟩ := e
    unfold mapDelete at ih ⊢
    by_cases hk : k = key
    · subst hk
      have hne : ¬ k = other := fun hko => h hko.symm
      simpa [mapGet, hne] using ih
    · by_cases hko : k = other
      · subst hko
        simp [mapGet, hk]
      · simpa [mapGet, hk, hko] using ih

theorem mapGet_eq_none_iff (m : Registry) (key : String) :
    mapGet m key = none ↔ key ∉ m.map Prod.fst := by
  induction m with
  | nil => simp [mapGet]
  | cons e rest ih =>
    obtain ⟨k, v⟩ := e
    by_cases h : k = key
    · simp [mapGet, h]
    · have h2 : ¬ key = k := fun hk => h hk.symm
      simpa [mapGet, h, h2] using ih

theorem mapDelete_of_not_mem (m : Registry) (key : String) (h : key ∉ m.map Prod.fst) :
    mapDelete m key = m := by
  unfold mapDelete
  rw [List.filter_eq_self]
  intro e he
  have : e.1 ≠ key := fun hk => h (hk ▸ List.mem_map_of_mem Prod.fst he)
  simpa using this

/-! ## uploadFile lemmas -/

theorem uploadCatch_activeUploads (file : File) (error : JsError) (s : State) :
    (uploadCatch file error s).2.activeUploads = mapDelete s.activeUploads file.name := by
  unfold uploadCatch
  split_ifs <;> rfl

theorem resolveFree_uuid : resolveFree "uuid" = Except.error (referenceError "uuid") := rfl

/-- Once validation has passed, every path through the `try` block ends in the
`catch` block: the registration or the PUT throws, or the cleanup line
evaluates the undeclared `uuid`. -/
theorem uploadTry_activeUploads (env : UploadEnv) (file : File) (onProgress : Bool) (s : State) :
    ∃ m, (uploadTry env file onProgress s).2.activeUploads = mapDelete m file.name := by
  unfold uploadTry
  cases env.registration with
  | rejected error => exact ⟨_, uploadCatch_activeUploads _ _ _⟩
  | resolved response =>
    cases env.put with
    | rejected error => exact ⟨_, uploadCatch_activeUploads _ _ _⟩
    | resolved uploadResponse =>
      simp only [resolveFree_uuid]
      exact ⟨_, uploadCatch_activeUploads _ _ _⟩

/-- When the registration and the PUT both resolve, `uploadFile` returns the
failure built from the `ReferenceError` of the cleanup line, whatever the
statuses. -/
theorem uploadTry_resolved (env : UploadEnv) (file : File) (onProgress : Bool) (s : State)
    (response : FetchResponse) (uploadResponse : AxiosResponse)
    (hreg : env.registration = Settled.resolved response)
    (hput : env.put = Settled.resolved uploadResponse) :
    (uploadTry env file onProgress s).1 =
      Outcome.returned
        { success := false
          message := some "uuid is not defined"
          error := some (referenceError "uuid") } := by
  unfold uploadTry
  simp only [hreg, hput, resolveFree_uuid]
  rfl

/-- A PUT rejected with status 401 (and not by cancellation) makes `uploadFile`
throw the authentication-expired error. -/
theorem uploadTry_put_401 (env : UploadEnv) (file : File) (onProgress : Bool) (s : State)
    (response : FetchResponse) (error : JsError) (r : ErrorResponse)
    (hreg : env.registration = Settled.resolved response)
    (hput : env.put = Settled.rejected error)
    (hcancel : error.cancel = false) (hresp : error.response = some r) (hstatus : r.status = 401) :
    (uploadTry env file onProgress s).1 = Outcome.thrown authenticationExpired := by
  unfold uploadTry
  simp only [hreg, hput]
  simp [uploadCatch, hcancel, hresp, hstatus]

theorem handleUploadError_success (error : JsError) :
    (handleUploadError error).success = false := by
  unfold handleUploadError
  split_ifs
  · rfl
  · dsimp only
    split <;> rfl
  · rfl

/-- For every accepted file, whatever the registration and the PUT resolve with,
`uploadFile` returns the failure built from the `ReferenceError`: the success
return of the `try` block is never reached. -/
theorem uploadFile_resolved_never_succeeds (env : UploadEnv) (file : File) (onProgress : Bool)
    (s : State) (response : FetchResponse) (uploadResponse : AxiosResponse)
    (hvalid : (validateFile (some file) s).1.success = true)
    (hreg : env.registration = Settled.resolved response)
    (hput : env.put = Settled.resolved uploadResponse) :
    (uploadFile env (some file) onProgress s).1 =
      Outcome.returned
        { success := false
          message := some "uuid is not defined"
          error := some (referenceError "uuid") } := by
  unfold uploadFile
  simp only [hvalid, Bool.not_true, Bool.false_eq_true, if_false]
  exact uploadTry_resolved env file onProgress _ response uploadResponse hreg hput

/-- For every accepted file, once the registration `fetch` has resolved, whatever
its status (401 included), `uploadFile` throws only if the PUT is rejected with
a 401: in every other case it returns a `{ success: false }` result. -/
theorem uploadFile_registration_status_unchecked (env : UploadEnv) (file : File)
    (onProgress : Bool) (s : State) (response : FetchResponse)
    (hvalid : (validateFile (some file) s).1.success = true)
    (hreg : env.registration = Settled.resolved response)
    (hput : ∀ error, env.put = Settled.rejected error →
      error.cancel = true ∨ error.response.map (fun r => r.status) ≠ some 401) :
    ∃ result, (uploadFile env (some file) onProgress s).1 = Outcome.returned result ∧
      result.success = false := by
  unfold uploadFile
  simp only [hvalid, Bool.not_true, Bool.false_eq_true, if_false]
  unfold uploadTry
  simp only [hreg]
  cases hp : env.put with
  | resolved uploadResponse =>
    simp only [resolveFree_uuid]
    exact ⟨_, rfl, rfl⟩
  | rejected error =>
    simp only [uploadCatch]
    rcases hput error hp with hc | hs
    · simp only [hc, if_true]
      exact ⟨_, rfl, rfl⟩
    · by_cases hc : error.cancel = true
      · simp only [hc, if_true]
        exact ⟨_, rfl, rfl⟩
      · simp only [hc, hs, if_false]
        exact ⟨_, rfl, handleUploadError_success error⟩

/-! ## validateFile lemmas -/

theorem containsStr_append_left (a b : String) : containsStr (a ++ b) a = true := by
  simp only [containsStr, decide_eq_true_eq, String.data_append]
  exact ⟨[], b.data, by simp⟩

theorem containsStr_append_mid (a b c : String) : containsStr (a ++ b ++ c) b = true := by
  simp only [containsStr, decide_eq_true_eq, String.data_append]
  exact ⟨a.data, c.data, rfl⟩

/-- The MIME lists of the categories are disjoint: the first match of the scan is
the only match. -/
theorem findTypeConfig_of_mem (mime key : String) (config : TypeConfig)
    (hmem : (key, config) ∈ allowedTypes) (hmime : mime ∈ config.mimeTypes) :
    findTypeConfig mime (allowedTypes.map Prod.snd) = some config := by
  simp only [allowedTypes, List.mem_cons, Prod.mk.injEq, List.mem_singleton, List.not_mem_nil,
    or_false] at hmem
  rcases hmem with ⟨-, rfl⟩ | ⟨-, rfl⟩
  · simp [allowedTypes, findTypeConfig, hmime]
  · have hpdf : mime = "application/pdf" := by simpa [documentConfig] using hmime
    subst hpdf
    decide

theorem findTypeConfig_of_not_mem (mime : String)
    (hnone : ∀ e ∈ allowedTypes, mime ∉ e.2.mimeTypes) :
    findTypeConfig mime (allowedTypes.map Prod.snd) = none := by
  have h1 := hnone ("image", imageConfig) (by simp [allowedTypes])
  have h2 := hnone ("document", documentConfig) (by simp [allowedTypes])
  simp only at h1 h2
  simp [allowedTypes, findTypeConfig, h1, h2]

/-! ## Cancellation lemmas -/

/-- The loop of `cancelAllUploads` over pending entries with distinct keys, all
still registered: each is canceled and deleted in turn. -/
theorem cancelAllLoop_eq (pending : List (String × CancelSource)) (s : State) (count : Nat)
    (hnodup : (pending.map Prod.fst).Nodup)
    (hpresent : ∀ k ∈ pending.map Prod.fst, mapGet s.activeUploads k ≠ none) :
    cancelAllLoop pending s count =
      ({ s with
          cancels := s.cancels ++ pending.map (fun e => (e.2, "All uploads canceled"))
          activeUploads := s.activeUploads.filter (fun e => decide (e.1 ∉ pending.map Prod.fst)) },
       count + pending.length) := by
  induction pending generalizing s count with
  | nil => simp [cancelAllLoop]
  | cons e rest ih =>
    obtain ⟨k, source⟩ := e
    have hk : (mapGet s.activeUploads k).isSome = true := by
      have := hpresent k (by simp)
      exact Option.isSome_iff_ne_none.mpr this
    have hnd : (rest.map Prod.fst).Nodup := (List.nodup_cons.mp hnodup).2
    have hknot : k ∉ rest.map Prod.fst := (List.nodup_cons.mp hnodup).1
    unfold cancelAllLoop
    simp only [hk, if_true]
    rw [ih _ _ hnd]
    · simp only [cancelSource, mapDelete, List.filter_filter, List.map_cons, List.length_cons,
        List.append_assoc, List.singleton_append, Prod.mk.injEq]
      refine ⟨?_, by omega⟩
      congr 1
      apply List.filter_congr
      intro x _
      by_cases hx : x.1 = k <;> simp [hx]
    · intro k2 hk2
      have hne : k2 ≠ k := fun h => hknot (h ▸ hk2)
      simp only [cancelSource]
      rw [mapGet_mapDelete_of_ne _ _ _ hne]
      exact hpresent k2 (by simp [List.mem_map] at hk2 ⊢; exact Or.inr hk2)

/-! ## Claims on uploadFile -/

/-- C1 (defect in the code): for the accepted file `photo.png`, with the
registration and the PUT both resolved with status 200, `uploadFile` does not
return `{ success: true, file }`: the cleanup line `this.activeUploads.delete(uuid)`
evaluates an undeclared identifier, the `ReferenceError` is caught, and the call
returns `{ success: false, message: 'uuid is not defined', error }`. -/
theorem uploadFile_resolved_returns_failure :
    (validateFile (some samplePng) {}).1 = { success := true } ∧
    uploadFile resolvedEnv (some samplePng) false {} =
      (Outcome.returned
        { success := false
          message := some "uuid is not defined"
          error := some (referenceError "uuid") },
       { requests :=
          [Request.post "https://api.example/api/files/upload"
             { originalName := "photo.png", mimeType := "image/png", size := 5242880 },
           Request.put (some "https://store.example/key") samplePng "image/png" { id := 7 }] }) := by
  decide

/-- C2: for every file that passes `validateFile`, whatever the registration and
the PUT do (resolve, reject with a transport error, a cancellation or a 401)
and whatever other code does to the registry while the call is suspended, when
`uploadFile` settles, by returning or by throwing, `activeUploads` has no
entry under `file.name`. -/
theorem uploadFile_leaves_no_entry (env : UploadEnv) (file : File) (onProgress : Bool)
    (s : State) (hvalid : (validateFile (some file) s).1.success = true) :
    mapGet (uploadFile env (some file) onProgress s).2.activeUploads file.name = none := by
  unfold uploadFile
  simp only [hvalid, Bool.not_true, Bool.false_eq_true, if_false]
  obtain ⟨m, hm⟩ := uploadTry_activeUploads env file onProgress
    (suspended env.afterValidate (validateFile (some file) s).2)
  rw [hm]
  exact mapGet_mapDelete_self m file.name

/-- An upload of `photo.png` canceled during the PUT, next to an unrelated
entry, leaves no entry under `photo.png`. -/
theorem uploadFile_leaves_no_entry_witness :
    (validateFile (some samplePng) { activeUploads := [("other.pdf", { id := 3 })] }).1.success = true ∧
    mapGet (uploadFile canceledEnv (some samplePng) true
      { activeUploads := [("other.pdf", { id := 3 })] }).2.activeUploads samplePng.name = none :=
  ⟨by decide, uploadFile_leaves_no_entry canceledEnv samplePng true _ (by decide)⟩

/-- C3 (defect in the code): a registration answered with status 401 does not
make `uploadFile` throw.  `fetch` resolves on a 401, the `catch` block never sees
it, and the call returns a `{ success: false }` result: the one built from the
`ReferenceError` when the PUT resolves, the generic upload failure when the PUT
fails without a response. -/
theorem uploadFile_registration_401_returns_failure :
    (validateFile (some samplePng) {}).1 = { success := true } ∧
    (uploadFile registration401Env (some samplePng) false {}).1 =
      Outcome.returned
        { success := false
          message := some "uuid is not defined"
          error := some (referenceError "uuid") } ∧
    (uploadFile registration401NetworkEnv (some samplePng) false {}).1 =
      Outcome.returned { success := false, message := some "파일 업로드에 실패했습니다." } := by
  decide

/-! ## Claims on validateFile -/

/-- C4: every present file larger than the global ceiling of 50 MiB
(52,428,800 bytes) is rejected by `validateFile`, whatever its MIME type and
name. -/
theorem validateFile_rejects_above_uploadLimit (file : File) (s : State)
    (hsize : file.size > 52428800) :
    (validateFile (some file) s).1.success = false := by
  have h : file.size > uploadLimit := hsize
  simp [validateFile, h]

/-- A PNG of 52,428,801 bytes is rejected. -/
theorem validateFile_rejects_above_uploadLimit_witness :
    (52428801 > 52428800) ∧
    (validateFile (some { name := "photo.png", type := "image/png", size := 52428801 }) {}).1.success
      = false :=
  ⟨by decide, validateFile_rejects_above_uploadLimit _ _ (by decide)⟩

/-- C5 (counterexample): `notes.txt` of type `text/plain` and 52,428,801 bytes
has a MIME type listed in no category, and `validateFile` rejects it with the
global size message, not with the unsupported-format message. -/
theorem validateFile_unsupported_counterexample :
    (∀ e ∈ allowedTypes, "text/plain" ∉ e.2.mimeTypes) ∧
    (validateFile (some { name := "notes.txt", type := "text/plain", size := 52428801 }) {}).1 =
      { success := false, message := some "파일 크기는 50 MB를 초과할 수 없습니다." } ∧
    (validateFile (some { name := "notes.txt", type := "text/plain", size := 52428801 }) {}).1.message ≠
      some "지원하지 않는 파일 형식입니다." := by
  decide

/-- C5 (amended): every present file no larger than the global ceiling whose MIME
type is in no category's `mimeTypes` list is rejected by `validateFile` with the
unsupported-format message, which is also sent to `Toast.error`. -/
theorem validateFile_unsupported_format (file : File) (s : State)
    (hsize : file.size ≤ uploadLimit)
    (hnone : ∀ e ∈ allowedTypes, file.type ∉ e.2.mimeTypes) :
    validateFile (some file) s =
      ({ success := false, message := some "지원하지 않는 파일 형식입니다." },
       toastError "지원하지 않는 파일 형식입니다." s) := by
  have h : ¬ file.size > uploadLimit := Nat.not_lt.mpr hsize
  simp [validateFile, h, findTypeConfig_of_not_mem file.type hnone]

/-- A text file of 1,000 bytes is rejected as an unsupported format. -/
theorem validateFile_unsupported_format_witness :
    (1000 ≤ uploadLimit) ∧ (∀ e ∈ allowedTypes, "text/plain" ∉ e.2.mimeTypes) ∧
    validateFile (some { name := "notes.txt", type := "text/plain", size := 1000 }) {} =
      ({ success := false, message := some "지원하지 않는 파일 형식입니다." },
       toastError "지원하지 않는 파일 형식입니다." {}) :=
  ⟨by decide, by decide,
    validateFile_unsupported_format { name := "notes.txt", type := "text/plain", size := 1000 } {}
      (by decide) (by decide)⟩

/-- C6 (counterexample): `big.png` of type `image/png` and 52,428,801 bytes
matches the image category and exceeds its 10 MiB ceiling, and the rejection
message is the global one: it contains neither the category's display name nor
its formatted ceiling. -/
theorem validateFile_category_size_counterexample :
    (("image", imageConfig) ∈ allowedTypes ∧ "image/png" ∈ imageConfig.mimeTypes ∧
      52428801 > imageConfig.maxSize) ∧
    (validateFile (some { name := "big.png", type := "image/png", size := 52428801 }) {}).1 =
      { success := false, message := some "파일 크기는 50 MB를 초과할 수 없습니다." } ∧
    containsStr "파일 크기는 50 MB를 초과할 수 없습니다." imageConfig.name = false ∧
    containsStr "파일 크기는 50 MB를 초과할 수 없습니다." (formatFileSize imageConfig.maxSize) = false := by
  decide

/-- C6 (amended): every present file no larger than the global ceiling whose MIME
type is in a category's `mimeTypes` list and whose size exceeds that category's
`maxSize` (10 MiB for image, 20 MiB for document) is rejected by `validateFile`
with the message `<name> 파일은 <formatFileSize(maxSize)>를 초과할 수 없습니다.`, which
contains that category's display name and `formatFileSize` of its `maxSize`. -/
theorem validateFile_category_size (file : File) (s : State) (key : String) (config : TypeConfig)
    (hsize : file.size ≤ uploadLimit)
    (hmem : (key, config) ∈ allowedTypes) (hmime : file.type ∈ config.mimeTypes)
    (hmax : file.size > config.maxSize) :
    allowedTypes.map (fun e => (e.1, e.2.maxSize)) =
      [("image", 10 * 1024 * 1024), ("document", 20 * 1024 * 1024)] ∧
    ∃ message,
      (validateFile (some file) s).1 = { success := false, message := some message } ∧
      message = config.name ++ " 파일은 " ++ formatFileSize config.maxSize ++ "를 초과할 수 없습니다." ∧
      containsStr message config.name = true ∧
      containsStr message (formatFileSize config.maxSize) = true := by
  refine ⟨rfl, _, ?_, rfl, ?_, ?_⟩
  · have h : ¬ file.size > uploadLimit := Nat.not_lt.mpr hsize
    simp [validateFile, h, findTypeConfig_of_mem file.type key config hmem hmime, hmax]
  · rw [String.append_assoc, String.append_assoc]
    exact containsStr_append_left _ _
  · exact containsStr_append_mid _ _ _

/-- A PDF of 21 MiB is rejected with the message naming `PDF 문서` and `20 MB`. -/
theorem validateFile_category_size_witness :
    allowedTypes.map (fun e => (e.1, e.2.maxSize)) =
      [("image", 10 * 1024 * 1024), ("document", 20 * 1024 * 1024)] ∧
    ∃ message,
      (validateFile (some { name := "book.pdf", type := "application/pdf", size := 22020096 }) {}).1 =
        { success := false, message := some message } ∧
      message = documentConfig.name ++ " 파일은 " ++ formatFileSize documentConfig.maxSize
        ++ "를 초과할 수 없습니다." ∧
      containsStr message documentConfig.name = true ∧
      containsStr message (formatFileSize documentConfig.maxSize) = true :=
  validateFile_category_size { name := "book.pdf", type := "application/pdf", size := 22020096 } {}
    "document" documentConfig (by decide) (by decide) (by decide) (by decide)

/-- C7: every present file whose MIME type is in a category's `mimeTypes` list and
whose size is within the global and that category's ceiling is rejected by
`validateFile` when its lowercased extension, `getFileExtension(file.name)`
lowercased (`''` for a name without `.`), is not in that category's
`extensions` list. -/
theorem validateFile_rejects_extension (file : File) (s : State) (key : String)
    (config : TypeConfig)
    (hmem : (key, config) ∈ allowedTypes) (hmime : file.type ∈ config.mimeTypes)
    (hsize : file.size ≤ uploadLimit) (hmax : file.size ≤ config.maxSize)
    (hext : toLowerCase (getFileExtension (some file.name)) ∉ config.extensions) :
    (validateFile (some file) s).1 =
      { success := false, message := some "파일 확장자가 올바르지 않습니다." } := by
  have h : ¬ file.size > uploadLimit := Nat.not_lt.mpr hsize
  have h2 : ¬ file.size > config.maxSize := Nat.not_lt.mpr hmax
  simp [validateFile, h, h2, findTypeConfig_of_mem file.type key config hmem hmime, hext]

/-- A PNG image named `photo.pdf`, and one named `photo` without extension, are
rejected. -/
theorem validateFile_rejects_extension_witness :
    (validateFile (some { name := "photo.pdf", type := "image/png", size := 1000 }) {}).1 =
      { success := false, message := some "파일 확장자가 올바르지 않습니다." } ∧
    (validateFile (some { name := "photo", type := "image/png", size := 1000 }) {}).1 =
      { success := false, message := some "파일 확장자가 올바르지 않습니다." } :=
  ⟨validateFile_rejects_extension { name := "photo.pdf", type := "image/png", size := 1000 } {}
      "image" imageConfig (by decide) (by decide) (by decide) (by decide) (by decide),
   validateFile_rejects_extension { name := "photo", type := "image/png", size := 1000 } {}
      "image" imageConfig (by decide) (by decide) (by decide) (by decide) (by decide)⟩

/-! ## Claims on isRetryableError -/

/-- C8: for every error value, `isRetryableError` is true exactly when the error
has no response or its response status is one of 408, 429, 500, 502, 503, 504;
it is true for 503 and for a response-less error, and false for 400, 401, 403,
404, 413 and 415. -/
theorem isRetryableError_iff (error : JsError) :
    (isRetryableError error = true ↔
      (error.response = none ∨
        ∃ r, error.response = some r ∧ r.status ∈ [408, 429, 500, 502, 503, 504])) ∧
    isRetryableError { error with response := some { status := 503 } } = true ∧
    isRetryableError { error with response := none } = true ∧
    ([400, 401, 403, 404, 413, 415].map
      (fun status => isRetryableError { error with response := some { status := status } })) =
      [false, false, false, false, false, false] := by
  refine ⟨?_, rfl, rfl, rfl⟩
  unfold isRetryableError
  cases hresp : error.response with
  | none => simp
  | some r => simp

/-- The judgment on a timeout error without a response and on a 404 response. -/
theorem isRetryableError_iff_witness :
    isRetryableError { code := some "ECONNABORTED" } = true ∧
    isRetryableError { axiosError := true, response := some { status := 404 } } = false :=
  ⟨((isRetryableError_iff { code := some "ECONNABORTED" }).1).mpr (Or.inl rfl), by decide⟩

/-! ## Claims on the registry -/

/-- C9: for every registry state and key: when the key has no entry,
`cancelUpload` returns `success: false` and changes nothing (no cancellation is
invoked, `activeUploads` is unchanged); when the key has an entry, it invokes
that handle's `cancel` exactly once, returns `success: true`, leaves no entry
under the key, and leaves every entry under another key unchanged. -/
theorem cancelUpload_spec (s : State) (key : String) :
    (mapGet s.activeUploads key = none →
      (cancelUpload key s).1 = { success := false, message := some "취소할 업로드를 찾을 수 없습니다." } ∧
      (cancelUpload key s).2 = s) ∧
    (∀ source, mapGet s.activeUploads key = some source →
      (cancelUpload key s).1 = { success := true, message := some "업로드가 취소되었습니다." } ∧
      (cancelUpload key s).2 =
        { s with
          cancels := s.cancels ++ [(source, "Upload canceled by user")]
          activeUploads := s.activeUploads.filter (fun e => e.1 ≠ key) } ∧
      mapGet (cancelUpload key s).2.activeUploads key = none ∧
      ∀ other, other ≠ key →
        mapGet (cancelUpload key s).2.activeUploads other = mapGet s.activeUploads other) := by
  constructor
  · intro hnone
    simp [cancelUpload, hnone]
  · intro source hsome
    have hstate : (cancelUpload key s).2 =
        { s with
          cancels := s.cancels ++ [(source, "Upload canceled by user")]
          activeUploads := mapDelete s.activeUploads key } := by
      simp [cancelUpload, hsome, cancelSource]
    refine ⟨by simp [cancelUpload, hsome], hstate, ?_, ?_⟩
    · rw [hstate]
      exact mapGet_mapDelete_self _ _
    · intro other hne
      rw [hstate]
      exact mapGet_mapDelete_of_ne _ _ _ hne

/-- Canceling `a.png` among two uploads cancels source 1 once and keeps `b.pdf`;
canceling the unregistered `c.gif` changes nothing. -/
theorem cancelUpload_spec_witness :
    cancelUpload "a.png" twoUploads =
      ({ success := true, message := some "업로드가 취소되었습니다." },
       { activeUploads := [("b.pdf", { id := 2 })]
         cancels := [({ id := 1 }, "Upload canceled by user")] }) ∧
    cancelUpload "c.gif" twoUploads =
      ({ success := false, message := some "취소할 업로드를 찾을 수 없습니다." }, twoUploads) := by
  have h := cancelUpload_spec twoUploads "c.gif"
  exact ⟨by decide, Prod.ext (h.1 (by decide)).1 (h.1 (by decide)).2⟩

/-- C10: for every registry state holding n entries (a `Map`: distinct keys),
`cancelAllUploads` invokes `cancel` once on each of the n handles, in insertion
order, deleting each entry during the iteration, leaves `activeUploads` empty
and returns `success: true` with `canceledCount = n`; with zero entries it
returns `canceledCount` 0 and changes nothing. -/
theorem cancelAllUploads_spec (s : State) (hmap : s.activeUploads.WellFormed) :
    (cancelAllUploads s).1 =
      { success := true
        message := some (toString s.activeUploads.length ++ "개의 업로드가 취소되었습니다.")
        canceledCount := some s.activeUploads.length } ∧
    (cancelAllUploads s).2 =
      { s with
        cancels := s.cancels ++ s.activeUploads.map (fun e => (e.2, "All uploads canceled"))
        activeUploads := [] } ∧
    (s.activeUploads = [] →
      (cancelAllUploads s).1.canceledCount = some 0 ∧ (cancelAllUploads s).2 = s) := by
  have hloop := cancelAllLoop_eq s.activeUploads s 0 hmap
    (fun k hk => by
      intro hnone
      exact (mapGet_eq_none_iff _ _).mp hnone hk)
  have hempty :
      s.activeUploads.filter (fun e => decide (e.1 ∉ s.activeUploads.map Prod.fst)) = [] := by
    rw [List.filter_eq_nil_iff]
    intro e he
    simpa using ⟨e.2, he⟩
  rw [hempty] at hloop
  refine ⟨?_, ?_, ?_⟩
  · simp [cancelAllUploads, hloop]
  · simp [cancelAllUploads, hloop]
  · intro hnil
    simp [cancelAllUploads, hnil, cancelAllLoop]

/-- With two uploads in flight both sources are canceled once and the count is
2; with none the count is 0. -/
theorem cancelAllUploads_spec_witness :
    twoUploads.activeUploads.WellFormed ∧
    cancelAllUploads twoUploads =
      ({ success := true, message := some "2개의 업로드가 취소되었습니다.", canceledCount := some 2 },
       { activeUploads := []
         cancels := [({ id := 1 }, "All uploads canceled"), ({ id := 2 }, "All uploads canceled")] }) ∧
    (cancelAllUploads {}).1.canceledCount = some 0 :=
  ⟨by decide,
   Prod.ext (cancelAllUploads_spec twoUploads (by decide)).1
     (cancelAllUploads_spec twoUploads (by decide)).2.1,
   ((cancelAllUploads_spec {} (by decide)).2.2 rfl).1⟩

/-! ## Claims on error classification -/

/-- C11 (counterexample): an axios upload error with status 413 and the server
message `quota exceeded`, and an axios download error with status 404 and the
server message `no such object`, both get the default message of their row,
not the server-supplied one. -/
theorem handleError_server_message_counterexample :
    handleUploadError
        { axiosError := true, response := some { status := 413, message := some "quota exceeded" } } =
      { success := false, message := some "파일이 너무 큽니다." } ∧
    handleDownloadError
        { axiosError := true, response := some { status := 404, message := some "no such object" } } =
      { success := false, message := some "파일을 찾을 수 없습니다." } := by
  decide

/-- C11 (amended): for every axios error without a timeout code whose response
carries a status, `handleUploadError` and `handleDownloadError` return
`success: false`; with the default message of that status's row (400, 401, 413,
415, 500 for upload; 400, 403, 404, 500 for download; the generic failure
message for any other status) when the response body has no message or an
empty one; and when the body has a non-empty message, with that message for
status 400 and for a status outside the table, and still with the row's
default for 401, 413, 415, 500 (upload) and 403, 404, 500 (download). -/
theorem handleError_status_message (error : JsError) (r : ErrorResponse)
    (hcode : error.code ≠ some "ECONNABORTED") (haxios : error.axiosError = true)
    (hresp : error.response = some r) :
    ((handleUploadError error).success = false ∧ (handleDownloadError error).success = false) ∧
    (isFalsy r.message = true →
      handleUploadError error =
        { success := false, message := some (uploadDefaultMessage r.status) } ∧
      handleDownloadError error =
        { success := false, message := some (downloadDefaultMessage r.status) }) ∧
    (∀ m, r.message = some m → m ≠ "" →
      handleUploadError error =
        { success := false
          message := some
            (if r.status ∈ [401, 413, 415, 500] then uploadDefaultMessage r.status else m) } ∧
      handleDownloadError error =
        { success := false
          message := some
            (if r.status ∈ [403, 404, 500] then downloadDefaultMessage r.status else m) }) := by
  obtain ⟨status, message⟩ := r
  refine ⟨⟨handleUploadError_success error, ?_⟩, ?_, ?_⟩
  · simp only [handleDownloadError, hcode, haxios, hresp, if_false, if_true, Option.map_some']
    split <;> rfl
  · intro hfalsy
    have hmsg : ∀ d, orElse message d = d := by
      intro d
      cases message with
      | none => rfl
      | some m => simp [isFalsy] at hfalsy; simp [orElse, hfalsy]
    constructor
    · simp only [handleUploadError, hcode, haxios, hresp, if_false, if_true, Option.map_some',
        Option.bind_some]
      split <;> simp_all [uploadDefaultMessage]
    · simp only [handleDownloadError, hcode, haxios, hresp, if_false, if_true, Option.map_some',
        Option.bind_some]
      split <;> simp_all [downloadDefaultMessage]
  · intro m hm hne
    simp only at hm
    subst hm
    have hmsg : ∀ d, orElse (some m) d = m := by
      intro d
      simp [orElse, hne]
    constructor
    · simp only [handleUploadError, hcode, haxios, hresp, if_false, if_true, Option.map_some',
        Option.bind_some]
      split <;> simp_all [uploadDefaultMessage]
    · simp only [handleDownloadError, hcode, haxios, hresp, if_false, if_true, Option.map_some',
        Option.bind_some]
      split <;> simp_all [downloadDefaultMessage]

/-- An upload error with status 400 and the server message `bad name` returns
that message; with status 500 it returns the row's default. -/
theorem handleError_status_message_witness :
    handleUploadError
        { axiosError := true, response := some { status := 400, message := some "bad name" } } =
      { success := false, message := some "bad name" } ∧
    handleDownloadError
        { axiosError := true, response := some { status := 400, message := some "bad name" } } =
      { success := false, message := some "bad name" } ∧
    handleUploadError { axiosError := true, response := some { status := 500 } } =
      { success := false, message := some "서버 오류가 발생했습니다." } :=
  ⟨((handleError_status_message
      { axiosError := true, response := some { status := 400, message := some "bad name" } }
      { status := 400, message := some "bad name" } (by decide) rfl rfl).2.2
      "bad name" rfl (by decide)).1,
   ((handleError_status_message
      { axiosError := true, response := some { status := 400, message := some "bad name" } }
      { status := 400, message := some "bad name" } (by decide) rfl rfl).2.2
      "bad name" rfl (by decide)).2,
   ((handleError_status_message { axiosError := true, response := some { status := 500 } }
      { status := 500 } (by decide) rfl rfl).2.1 rfl).1⟩

/-! ## Claims on rejected and accepted files -/

theorem validateFile_frame (file : Option File) (s : State) :
    (validateFile file s).2.activeUploads = s.activeUploads ∧
    (validateFile file s).2.requests = s.requests ∧
    (validateFile file s).2.cancels = s.cancels ∧
    (validateFile file s).2.progress = s.progress := by
  unfold validateFile
  cases file with
  | none => exact ⟨rfl, rfl, rfl, rfl⟩
  | some f =>
    dsimp only
    split_ifs
    · exact ⟨rfl, rfl, rfl, rfl⟩
    · split
      · exact ⟨rfl, rfl, rfl, rfl⟩
      · split_ifs <;> exact ⟨rfl, rfl, rfl, rfl⟩

/-- C15: for every file that `validateFile` rejects, an absent file included,
`uploadFile` returns exactly the result of `validateFile`, issues no network
request (the request log is unchanged), and makes no change to
`activeUploads`: the registry is what other code left while the call was
suspended at its `await`, and the initial one when no other code ran. -/
theorem uploadFile_rejected (env : UploadEnv) (file : Option File) (onProgress : Bool)
    (s : State) (hrejected : (validateFile file s).1.success = false) :
    (uploadFile env file onProgress s).1 = Outcome.returned (validateFile file s).1 ∧
    (uploadFile env file onProgress s).2.requests = s.requests ∧
    (uploadFile env file onProgress s).2.activeUploads = env.afterValidate s.activeUploads ∧
    (env.afterValidate = id → (uploadFile env file onProgress s).2.activeUploads = s.activeUploads) ∧
    (uploadFile env file onProgress s).2.cancels = s.cancels ∧
    (uploadFile env file onProgress s).2.progress = s.progress := by
  obtain ⟨h1, h2, h3, h4⟩ := validateFile_frame file s
  have hstate : (uploadFile env file onProgress s).2 =
      suspended env.afterValidate (validateFile file s).2 := by
    unfold uploadFile
    simp [hrejected]
  refine ⟨?_, ?_, ?_, ?_, ?_, ?_⟩
  · unfold uploadFile
    simp [hrejected]
  · rw [hstate]; exact h2
  · rw [hstate]; simp only [suspended]; rw [h1]
  · intro hid
    rw [hstate]; simp only [suspended]; rw [h1, hid]; rfl
  · rw [hstate]; exact h3
  · rw [hstate]; exact h4

/-- An absent file and a text file are returned as `validateFile` rejects them,
with two uploads in flight left as they were and no request issued. -/
theorem uploadFile_rejected_witness :
    uploadFile resolvedEnv none true twoUploads =
      (Outcome.returned { success := false, message := some "파일이 선택되지 않았습니다." },
       { twoUploads with toasts := ["파일이 선택되지 않았습니다."] }) ∧
    (uploadFile resolvedEnv (some { name := "notes.txt", type := "text/plain", size := 1000 }) true
      twoUploads).2.requests = [] :=
  ⟨by decide,
   (uploadFile_rejected resolvedEnv (some { name := "notes.txt", type := "text/plain", size := 1000 })
      true twoUploads (by decide)).2.1⟩

/-- C19: every file whose MIME type is in a category's `mimeTypes` list, whose
size is at most that category's `maxSize`, and whose lowercased extension is in
that category's `extensions` list is accepted: `validateFile` returns exactly
`{ success: true }` and the state, Toast log included, is unchanged. -/
theorem validateFile_accepts (file : File) (s : State) (key : String) (config : TypeConfig)
    (hmem : (key, config) ∈ allowedTypes) (hmime : file.type ∈ config.mimeTypes)
    (hmax : file.size ≤ config.maxSize)
    (hext : toLowerCase (getFileExtension (some file.name)) ∈ config.extensions) :
    validateFile (some file) s = ({ success := true }, s) := by
  have hlimit : config.maxSize ≤ uploadLimit := by
    simp only [allowedTypes, List.mem_cons, Prod.mk.injEq, List.mem_singleton, List.not_mem_nil,
      or_false] at hmem
    rcases hmem with ⟨-, rfl⟩ | ⟨-, rfl⟩ <;> decide
  have h : ¬ file.size > uploadLimit := Nat.not_lt.mpr (le_trans hmax hlimit)
  have h2 : ¬ file.size > config.maxSize := Nat.not_lt.mpr hmax
  simp [validateFile, h, h2, findTypeConfig_of_mem file.type key config hmem hmime, hext]

/-- The 5 MiB `photo.png` and a 20 MiB `Book.PDF` are accepted without a Toast. -/
theorem validateFile_accepts_witness :
    validateFile (some samplePng) {} = ({ success := true }, {}) ∧
    validateFile (some { name := "Book.PDF", type := "application/pdf", size := 20971520 }) twoUploads =
      ({ success := true }, twoUploads) :=
  ⟨validateFile_accepts samplePng {} "image" imageConfig (by decide) (by decide) (by decide)
      (by decide),
   validateFile_accepts { name := "Book.PDF", type := "application/pdf", size := 20971520 }
      twoUploads "document" documentConfig (by decide) (by decide) (by decide) (by decide)⟩

/-! ## Claims on downloadFile -/

/-- When the download request resolves and `originalname` is given (not empty),
`downloadFile` saves under that name and returns `{ success: true }`. -/
theorem downloadFile_named (env : DownloadEnv) (filename : Option String) (name : String)
    (response : BlobResponse) (hget : env.get = Settled.resolved response) (hname : name ≠ "") :
    downloadFile env filename (some name) =
      (Outcome.returned { success := true },
       { requests := ["https://dypusta48vkr4.cloudfront.net/chat/" ++ interpolate filename]
         saved := [{ href := env.blobUrl, download := name
                     blobType := orElse response.contentType "application/octet-stream" }] }) := by
  simp [downloadFile, hget, isFalsy, hname, interpolate]

/-- C17 (defect in the code): with the download request resolved and
`originalname` absent, `downloadFile` does not save under a fallback identifier
and does not return `{ success: true }`: the fallback `fileId` is an undeclared
identifier, the `ReferenceError` is caught, nothing is saved and the call
returns `{ success: false, message: 'fileId is not defined', error }`.  With
`originalname` given the same download succeeds under that name. -/
theorem downloadFile_absent_name_returns_failure :
    downloadFile { get := Settled.resolved { contentType := some "image/png" } }
        (some "1700000000000_ab12.png") none =
      (Outcome.returned
        { success := false
          message := some "fileId is not defined"
          error := some (referenceError "fileId") },
       { requests := ["https://dypusta48vkr4.cloudfront.net/chat/1700000000000_ab12.png"]
         saved := [] }) ∧
    downloadFile { get := Settled.resolved { contentType := some "image/png" } }
        (some "1700000000000_ab12.png") (some "photo.png") =
      (Outcome.returned { success := true },
       { requests := ["https://dypusta48vkr4.cloudfront.net/chat/1700000000000_ab12.png"]
         saved := [{ href := "blob:1", download := "photo.png", blobType := "image/png" }] }) := by
  decide

/-! ## String lemmas -/

theorem toLower_toLower (c : Char) : c.toLower.toLower = c.toLower := by
  by_cases h : c.toNat ≥ 65 ∧ c.toNat ≤ 90
  · obtain ⟨n, hn⟩ : ∃ n, n = c.toNat := ⟨_, rfl⟩
    have hc : c = Char.ofNat n := by rw [hn, Char.ofNat_toNat]
    rw [← hn] at h
    obtain ⟨h1, h2⟩ := h
    subst hc
    interval_cases n <;> decide
  · have hc : c.toLower = c := by
      unfold Char.toLower
      simp only [h, if_false]
    rw [hc, hc]

theorem toLowerCase_toLowerCase (s : String) : toLowerCase (toLowerCase s) = toLowerCase s := by
  simp [toLowerCase, List.map_map, Function.comp_def, toLower_toLower]

theorem toLowerCase_append (a b : String) :
    toLowerCase (a ++ b) = toLowerCase a ++ toLowerCase b := by
  apply String.ext
  simp [toLowerCase, String.data_append]

theorem splitChars_ne_nil (sep : Char) (cs : List Char) : splitChars sep cs ≠ [] := by
  cases cs with
  | nil => simp [splitChars]
  | cons c cs =>
    unfold splitChars
    split
    · simp
    · split_ifs <;> simp

theorem splitChars_of_not_mem (sep : Char) (cs : List Char) (h : sep ∉ cs) :
    splitChars sep cs = [cs] := by
  induction cs with
  | nil => rfl
  | cons c cs ih =>
    have hc : ¬ c = sep := fun hcs => h (by simp [hcs])
    have hcs : sep ∉ cs := fun hm => h (List.mem_cons_of_mem _ hm)
    unfold splitChars
    rw [ih hcs]
    simp [hc]

theorem splitChars_append (sep : Char) (pre post : List Char) (h : sep ∉ post) :
    splitChars sep (pre ++ sep :: post) = splitChars sep pre ++ [post] := by
  induction pre with
  | nil =>
    simp only [List.nil_append]
    unfold splitChars
    rw [splitChars_of_not_mem sep post h]
    simp [splitChars]
  | cons c pre ih =>
    simp only [List.cons_append]
    unfold splitChars
    rw [ih]
    cases hsplit : splitChars sep pre with
    | nil => exact absurd hsplit (splitChars_ne_nil sep pre)
    | cons p ps =>
      simp only [List.cons_append]
      split_ifs <;> rfl

theorem exists_last_sep (sep : Char) (cs : List Char) (h : sep ∈ cs) :
    ∃ pre post, cs = pre ++ sep :: post ∧ sep ∉ post := by
  induction cs with
  | nil => simp at h
  | cons c cs ih =>
    by_cases hcs : sep ∈ cs
    · obtain ⟨pre, post, heq, hpost⟩ := ih hcs
      exact ⟨c :: pre, post, by simp [heq], hpost⟩
    · have hc : sep = c := by
        rcases List.mem_cons.mp h with hc | hc
        · exact hc
        · exact absurd hc hcs
      exact ⟨[], cs, by simp [hc], hcs⟩

theorem getFileExtension_of_not_mem (name : String) (h : '.' ∉ name.data) :
    getFileExtension (some name) = "" := by
  unfold getFileExtension
  by_cases hname : name = ""
  · simp [hname]
  · simp [hname, split, splitChars_of_not_mem '.' name.data h]

theorem getFileExtension_append (pre post : String) (h : '.' ∉ post.data) :
    getFileExtension (some (pre ++ "." ++ post)) = "." ++ toLowerCase post := by
  have hdata : (pre ++ "." ++ post).data = pre.data ++ '.' :: post.data := by
    simp [String.data_append]
  have hne : pre ++ "." ++ post ≠ "" := by
    intro heq
    have := congrArg String.data heq
    rw [hdata] at this
    simp at this
  unfold getFileExtension
  simp only [hne, if_false, split, hdata, splitChars_append '.' pre.data post.data h]
  have hlen : (List.map String.mk (splitChars '.' pre.data ++ [post.data])).length > 1 := by
    have := List.length_pos.mpr (splitChars_ne_nil '.' pre.data)
    simp
    omega
  simp only [hlen, if_true]
  simp

theorem getFileExtension_lower (name : Option String) :
    toLowerCase (getFileExtension name) = getFileExtension name := by
  cases name with
  | none => rfl
  | some name =>
    by_cases h : '.' ∈ name.data
    · obtain ⟨pre, post, heq, hpost⟩ := exists_last_sep '.' name.data h
      have hname : name = String.mk pre ++ "." ++ String.mk post := by
        apply String.ext
        simp [String.data_append, heq]
      rw [hname, getFileExtension_append _ _ (by simpa using hpost), toLowerCase_append,
        toLowerCase_toLowerCase]
      rfl
    · rw [getFileExtension_of_not_mem name h]
      rfl


/-! ## Type lookup lemmas -/

theorem mem_allowedTypes (key : String) (config : TypeConfig) (h : (key, config) ∈ allowedTypes) :
    (key = "image" ∧ config = imageConfig) ∨ (key = "document" ∧ config = documentConfig) := by
  simpa [allowedTypes] using h

theorem getFileTypeLoop_of_mem (ext key : String) (config : TypeConfig)
    (hmem : (key, config) ∈ allowedTypes) (hext : ext ∈ config.extensions) :
    getFileTypeLoop ext allowedTypes = key := by
  rcases mem_allowedTypes key config hmem with ⟨rfl, rfl⟩ | ⟨rfl, rfl⟩
  · simp [allowedTypes, getFileTypeLoop, hext]
  · have hpdf : ext = ".pdf" := by simpa [documentConfig] using hext
    subst hpdf
    decide

theorem getFileTypeLoop_of_not_mem (ext : String)
    (hnone : ∀ e ∈ allowedTypes, ext ∉ e.2.extensions) :
    getFileTypeLoop ext allowedTypes = "unknown" := by
  have h1 := hnone ("image", imageConfig) (by simp [allowedTypes])
  have h2 := hnone ("document", documentConfig) (by simp [allowedTypes])
  simp only at h1 h2
  simp [allowedTypes, getFileTypeLoop, h1, h2]

theorem getFileType_eq_loop (name : Option String) :
    getFileType name = getFileTypeLoop (getFileExtension name) allowedTypes := by
  cases name with
  | none => decide
  | some name =>
    unfold getFileType
    by_cases h : name = ""
    · subst h
      decide
    · simp only [h, if_false]
      rw [getFileExtension_lower]

theorem findTypeConfig_some (mime : String) (config : TypeConfig)
    (h : findTypeConfig mime (allowedTypes.map Prod.snd) = some config) :
    ∃ key, (key, config) ∈ allowedTypes ∧ mime ∈ config.mimeTypes := by
  simp only [allowedTypes, List.map_cons, List.map_nil, findTypeConfig] at h
  split_ifs at h with h1 h2
  · injection h with h
    subst h
    exact ⟨"image", by simp [allowedTypes], by simpa using h1⟩
  · injection h with h
    subst h
    exact ⟨"document", by simp [allowedTypes], by simpa using h2⟩

/-- What acceptance by `validateFile` means: the MIME type is in a category's
list, the size is within that category's ceiling, and the lowercased extension
is in that category's list. -/
theorem validateFile_success (file : File) (s : State)
    (h : (validateFile (some file) s).1.success = true) :
    ∃ key config, (key, config) ∈ allowedTypes ∧ file.type ∈ config.mimeTypes ∧
      file.size ≤ config.maxSize ∧
      toLowerCase (getFileExtension (some file.name)) ∈ config.extensions := by
  by_cases hsize : file.size > uploadLimit
  · simp [validateFile, hsize] at h
  · cases hfind : findTypeConfig file.type (allowedTypes.map Prod.snd) with
    | none => simp [validateFile, hsize, hfind] at h
    | some typeConfig =>
      obtain ⟨key, hmem, hmime⟩ := findTypeConfig_some file.type typeConfig hfind
      by_cases hmax : file.size > typeConfig.maxSize
      · simp [validateFile, hsize, hfind, hmax] at h
      · by_cases hext : toLowerCase (getFileExtension (some file.name)) ∈ typeConfig.extensions
        · exact ⟨key, typeConfig, hmem, hmime, Nat.not_lt.mp hmax, hext⟩
        · simp [validateFile, hsize, hfind, hmax, hext] at h

/-! ## Claims on getFileExtension and getFileType -/

theorem getFileExtension_eq_with (filename : Option String) :
    getFileExtension filename = getFileExtensionWith toLowerCase filename := by
  cases filename <;> rfl

theorem getFileExtensionWith_of_not_mem (lower : String → String) (name : String)
    (h : '.' ∉ name.data) : getFileExtensionWith lower (some name) = "" := by
  unfold getFileExtensionWith
  by_cases hname : name = ""
  · simp [hname]
  · simp [hname, split, splitChars_of_not_mem '.' name.data h]

theorem getFileExtensionWith_append (lower : String → String) (pre post : String)
    (h : '.' ∉ post.data) :
    getFileExtensionWith lower (some (pre ++ "." ++ post)) = "." ++ lower post := by
  have hdata : (pre ++ "." ++ post).data = pre.data ++ '.' :: post.data := by
    simp [String.data_append]
  have hne : pre ++ "." ++ post ≠ "" := by
    intro heq
    have := congrArg String.data heq
    rw [hdata] at this
    simp at this
  unfold getFileExtensionWith
  simp only [hne, if_false, split, hdata, splitChars_append '.' pre.data post.data h]
  have hlen : (List.map String.mk (splitChars '.' pre.data ++ [post.data])).length > 1 := by
    have := List.length_pos.mpr (splitChars_ne_nil '.' pre.data)
    simp
    omega
  simp only [hlen, if_true]
  simp

/-- C12: for every filename and whatever the host's `toLowerCase` is (`lower`),
`getFileExtension` returns the empty string when the name is absent or
contains no `.`, and otherwise `.` followed by the lowercased text after the
last `.`: a name with a `.` splits as `pre.post` with no `.` in `post`, and the
result is `.` followed by `lower post`.  In particular
`getFileExtension("a.b.JPG") = ".jpg"`, as the host lowercases `JPG` to `jpg`,
and `getFileExtension("noext") = ""`. -/
theorem getFileExtensionWith_spec (lower : String → String) :
    getFileExtensionWith lower none = "" ∧
    (∀ name : String, '.' ∉ name.data → getFileExtensionWith lower (some name) = "") ∧
    (∀ name : String, '.' ∈ name.data →
      ∃ pre post : String, name = pre ++ "." ++ post ∧ '.' ∉ post.data ∧
        getFileExtensionWith lower (some name) = "." ++ lower post) ∧
    (∀ pre post : String, '.' ∉ post.data →
      getFileExtensionWith lower (some (pre ++ "." ++ post)) = "." ++ lower post) ∧
    (lower "JPG" = "jpg" → getFileExtensionWith lower (some "a.b.JPG") = ".jpg") ∧
    getFileExtensionWith lower (some "noext") = "" := by
  refine ⟨rfl, getFileExtensionWith_of_not_mem lower, ?_, getFileExtensionWith_append lower,
    ?_, getFileExtensionWith_of_not_mem lower "noext" (by decide)⟩
  · intro name h
    obtain ⟨pre, post, heq, hpost⟩ := exists_last_sep '.' name.data h
    have hname : name = String.mk pre ++ "." ++ String.mk post := by
      apply String.ext
      simp [String.data_append, heq]
    refine ⟨String.mk pre, String.mk post, hname, by simpa using hpost, ?_⟩
    rw [hname]
    exact getFileExtensionWith_append lower _ _ (by simpa using hpost)
  · intro hjpg
    have h := getFileExtensionWith_append lower "a.b" "JPG" (by decide)
    rw [hjpg] at h
    exact h

/-- With a lowercasing that maps `ÉXT` to `éxt`, the extension of `x.ÉXT` is
`.éxt`, that of `a.b.JPG` is `.jpg`, and a name ending in `.` has the extension
`.` followed by the lowercased empty string. -/
theorem getFileExtensionWith_spec_witness :
    getFileExtensionWith sampleLower (some ("x" ++ "." ++ "ÉXT")) = "." ++ "éxt" ∧
    getFileExtensionWith sampleLower (some "a.b.JPG") = ".jpg" ∧
    getFileExtensionWith sampleLower (some ("name" ++ "." ++ "")) = "." ++ sampleLower "" :=
  ⟨(getFileExtensionWith_spec sampleLower).2.2.2.1 "x" "ÉXT" (by decide),
   (getFileExtensionWith_spec sampleLower).2.2.2.2.1 (by decide),
   (getFileExtensionWith_spec sampleLower).2.2.2.1 "name" "" (by decide)⟩

/-- C13: every extension listed in `allowedTypes` belongs to exactly one
category, and for every filename (absent or not): when
`getFileExtension(name)` is listed in a category, `getFileType(name)` is that
category's key, and when it is listed in none, `getFileType(name)` is
`unknown`. -/
theorem getFileType_spec :
    (∀ ext e1 e2, e1 ∈ allowedTypes → e2 ∈ allowedTypes →
      ext ∈ e1.2.extensions → ext ∈ e2.2.extensions → e1 = e2) ∧
    (∀ (name : Option String) (key : String) (config : TypeConfig),
      (key, config) ∈ allowedTypes → getFileExtension name ∈ config.extensions →
        getFileType name = key) ∧
    (∀ name : Option String, (∀ e ∈ allowedTypes, getFileExtension name ∉ e.2.extensions) →
      getFileType name = "unknown") := by
  refine ⟨?_, ?_, ?_⟩
  · intro ext e1 e2 h1 h2 hx1 hx2
    obtain ⟨k1, c1⟩ := e1
    obtain ⟨k2, c2⟩ := e2
    rcases mem_allowedTypes k1 c1 h1 with ⟨rfl, rfl⟩ | ⟨rfl, rfl⟩ <;>
      rcases mem_allowedTypes k2 c2 h2 with ⟨rfl, rfl⟩ | ⟨rfl, rfl⟩
    · rfl
    · exfalso
      have hpdf : ext = ".pdf" := by simpa [documentConfig] using hx2
      subst hpdf
      revert hx1
      decide
    · exfalso
      have hpdf : ext = ".pdf" := by simpa [documentConfig] using hx1
      subst hpdf
      revert hx2
      decide
    · rfl
  · intro name key config hmem hext
    rw [getFileType_eq_loop]
    exact getFileTypeLoop_of_mem _ key config hmem hext
  · intro name hnone
    rw [getFileType_eq_loop]
    exact getFileTypeLoop_of_not_mem _ hnone

/-- The type of `a.b.JPG` is `image`, of `Report.PDF` is `document`, of `notes.txt`
and of a name without extension is `unknown`. -/
theorem getFileType_spec_witness :
    getFileType (some "a.b.JPG") = "image" ∧ getFileType (some "Report.PDF") = "document" ∧
    getFileType (some "notes.txt") = "unknown" ∧ getFileType (some "noext") = "unknown" :=
  ⟨getFileType_spec.2.1 (some "a.b.JPG") "image" imageConfig (by decide) (by decide),
   getFileType_spec.2.1 (some "Report.PDF") "document" documentConfig (by decide) (by decide),
   getFileType_spec.2.2 (some "notes.txt") (by decide),
   getFileType_spec.2.2 (some "noext") (by decide)⟩

/-- C20: for every file accepted by `validateFile`, `getFileType(file.name)` is
the key of the category whose `mimeTypes` list contains `file.type` (there is
exactly one such category) and is not `unknown`. -/
theorem validateFile_accepted_type (file : File) (s : State)
    (haccepted : (validateFile (some file) s).1.success = true) :
    ∃ key config, (key, config) ∈ allowedTypes ∧ file.type ∈ config.mimeTypes ∧
      (∀ key2 config2, (key2, config2) ∈ allowedTypes → file.type ∈ config2.mimeTypes →
        key2 = key) ∧
      getFileType (some file.name) = key ∧
      getFileType (some file.name) ≠ "unknown" := by
  obtain ⟨key, config, hmem, hmime, -, hext⟩ := validateFile_success file s haccepted
  rw [getFileExtension_lower] at hext
  have htype : getFileType (some file.name) = key := by
    rw [getFileType_eq_loop]
    exact getFileTypeLoop_of_mem _ key config hmem hext
  refine ⟨key, config, hmem, hmime, ?_, htype, ?_⟩
  · intro key2 config2 hmem2 hmime2
    have h1 := findTypeConfig_of_mem file.type key config hmem hmime
    have h2 := findTypeConfig_of_mem file.type key2 config2 hmem2 hmime2
    rw [h1] at h2
    injection h2 with h2
    subst h2
    rcases mem_allowedTypes key config hmem with ⟨rfl, hc⟩ | ⟨rfl, hc⟩ <;>
      rcases mem_allowedTypes key2 config hmem2 with ⟨rfl, hc2⟩ | ⟨rfl, hc2⟩
    · rfl
    · rw [hc] at hc2
      exact absurd hc2 (by decide)
    · rw [hc] at hc2
      exact absurd hc2 (by decide)
    · rfl
  · rw [htype]
    rcases mem_allowedTypes key config hmem with ⟨rfl, -⟩ | ⟨rfl, -⟩ <;> decide

/-- The accepted `photo.png` of type `image/png` has the file type `image`. -/
theorem validateFile_accepted_type_witness :
    (validateFile (some samplePng) {}).1.success = true ∧
    ∃ key config, (key, config) ∈ allowedTypes ∧ samplePng.type ∈ config.mimeTypes ∧
      (∀ key2 config2, (key2, config2) ∈ allowedTypes → samplePng.type ∈ config2.mimeTypes →
        key2 = key) ∧
      getFileType (some samplePng.name) = key ∧
      getFileType (some samplePng.name) ≠ "unknown" :=
  ⟨by decide, validateFile_accepted_type samplePng {} (by decide)⟩

/-! ## Numeric lemmas -/

theorem log1024Aux_eq (fuel n : Nat) (h : n ≤ fuel) : log1024Aux fuel n = Nat.log 1024 n := by
  induction fuel generalizing n with
  | zero =>
    have hn : n = 0 := Nat.le_zero.mp h
    subst hn
    simp [log1024Aux]
  | succ fuel ih =>
    unfold log1024Aux
    by_cases hlt : n < 1024
    · simp only [hlt, if_true]
      exact (Nat.log_of_lt hlt).symm
    · simp only [hlt, if_false]
      have hge : 1024 ≤ n := Nat.not_lt.mp hlt
      have hdiv : n / 1024 ≤ fuel := by omega
      rw [ih (n / 1024) hdiv, Nat.log_of_one_lt_of_le (by norm_num) hge]

theorem floorLog1024_eq (bytes : Nat) : floorLog1024 bytes = Nat.log 1024 bytes :=
  log1024Aux_eq bytes bytes (Nat.le_refl bytes)

/-- Rounding half-up to hundredths by integer division is the floor of the
rational quotient times 100 plus one half. -/
theorem round_hundredths (b d : Nat) (hd : 0 < d) :
    (200 * b + d) / (2 * d) = ⌊(b : ℚ) / d * 100 + 1 / 2⌋₊ := by
  have hd2 : (d : ℚ) ≠ 0 := by exact_mod_cast Nat.pos_iff_ne_zero.mp hd
  have h : (b : ℚ) / d * 100 + 1 / 2 = ((200 * b + d : ℕ) : ℚ) / ((2 * d : ℕ) : ℚ) := by
    push_cast
    field_simp
    ring
  rw [h, Nat.floor_div_eq_div]

theorem roundHalfEven_ge (n d : Nat) : n / d ≤ roundHalfEven n d := by
  unfold roundHalfEven
  dsimp only
  split_ifs <;> omega

theorem roundHalfEven_le (n d : Nat) : 2 * (roundHalfEven n d * d) ≤ 2 * n + d := by
  have hq : n / d * d ≤ n := Nat.div_mul_le_self n d
  have hr : n = n / d * d + n % d := by
    rw [Nat.mul_comm]
    exact (Nat.div_add_mod n d).symm
  unfold roundHalfEven
  dsimp only
  split_ifs with h1 h2 h3
  · omega
  · rw [Nat.add_mul]; omega
  · omega
  · rw [Nat.add_mul]; omega

theorem roundHalfEven_one (n : Nat) : roundHalfEven n 1 = n := by
  unfold roundHalfEven
  simp [Nat.mod_one]

theorem scaleUp_spec (a t : Nat) :
    ∀ fuel s, 2 ^ 52 * t ≤ a * 2 ^ (s + fuel) → 2 ^ 52 * t ≤ a * 2 ^ scaleUp fuel s a t := by
  intro fuel
  induction fuel with
  | zero =>
    intro s h
    simpa [scaleUp] using h
  | succ fuel ih =>
    intro s h
    unfold scaleUp
    split_ifs with hs
    · exact hs
    · apply ih
      have hsum : s + 1 + fuel = s + (fuel + 1) := by omega
      rw [hsum]
      exact h

theorem scaleUp_bound (a t : Nat) (ha : 0 < a) :
    2 ^ 52 * t ≤ a * 2 ^ scaleUp (t + 53) 0 a t := by
  apply scaleUp_spec
  have h1 : t < 2 ^ t := Nat.lt_two_pow t
  have h2 : 2 ^ (0 + (t + 53)) = 2 ^ t * 2 ^ 53 := by rw [Nat.zero_add, Nat.pow_add]
  rw [h2]
  calc 2 ^ 52 * t ≤ 2 ^ 53 * 2 ^ t := Nat.mul_le_mul (by norm_num) (Nat.le_of_lt h1)
    _ = 1 * (2 ^ t * 2 ^ 53) := by ring
    _ ≤ a * (2 ^ t * 2 ^ 53) := Nat.mul_le_mul_right _ ha

theorem doubleOfNat_of_lt (n : Nat) (h : n < 2 ^ 53) : doubleOfNat n = n := by
  unfold doubleOfNat doubleDiv
  by_cases h0 : n = 0
  · simp [h0]
  · have h1 : n < 2 ^ 53 * 1 := by simpa using h
    simp only [h0, h1, if_false, if_true, roundHalfEven_one]
    exact Nat.mul_div_cancel _ (Nat.pow_pos (by norm_num))

/-- For a divisor below 2^46 and a quotient of at most 100, rounding the double
quotient gives the same integer as rounding the exact quotient: the exact
quotient is at least `1 / (2 * t)` away from the next half-integer, more than
the spacing of the doubles below 128. -/
theorem mathRound_doubleDiv (a t : Nat) (ht : 0 < t) (ht46 : t < 2 ^ 46) (hat : a ≤ 100 * t) :
    mathRound (doubleDiv a t) = (2 * a + t) / (2 * t) := by
  by_cases h0 : a = 0
  · subst h0
    simp only [doubleDiv, if_true, mathRound]
    rw [Nat.div_eq_of_lt (by omega), Nat.div_eq_of_lt (by omega)]
  · have ha : 0 < a := Nat.pos_of_ne_zero h0
    have h53 : a < 2 ^ 53 * t := by omega
    have hscale := scaleUp_bound a t ha
    simp only [doubleDiv, h0, h53, if_false, if_true, mathRound]
    generalize scaleUp (t + 53) 0 a t = s at hscale ⊢
    have hs : 46 ≤ s := by
      by_contra hlt
      have hs45 : s ≤ 45 := by omega
      have hp : 2 ^ s ≤ 2 ^ 45 := Nat.pow_le_pow_right (by norm_num) hs45
      have h1 : a * 2 ^ s ≤ 100 * t * 2 ^ 45 := Nat.mul_le_mul hat hp
      have h2 : 100 * t * 2 ^ 45 < 2 ^ 52 * t := by
        have : (100 : Nat) * 2 ^ 45 < 2 ^ 52 := by norm_num
        nlinarith
      omega
    obtain ⟨P, hP⟩ : ∃ P, 2 ^ s = 2 * P := ⟨2 ^ (s - 1), by
      rw [← Nat.pow_succ']; congr 1; omega⟩
    have hPt : t < 2 * P := by
      rw [← hP]
      calc t < 2 ^ 46 := ht46
        _ ≤ 2 ^ s := Nat.pow_le_pow_right (by norm_num) hs
    have hge := roundHalfEven_ge (a * 2 ^ s) t
    have hle := roundHalfEven_le (a * 2 ^ s) t
    generalize roundHalfEven (a * 2 ^ s) t = m at hge hle ⊢
    rw [hP] at hge hle ⊢
    have hk1 : (2 * a + t) / (2 * t) * (2 * t) ≤ 2 * a + t := Nat.div_mul_le_self _ _
    have hk2 : 2 * a + t < ((2 * a + t) / (2 * t) + 1) * (2 * t) := by
      have := Nat.lt_div_mul_add (a := 2 * a + t) (b := 2 * t) (by omega)
      rw [Nat.add_mul, Nat.one_mul]
      exact this
    generalize (2 * a + t) / (2 * t) = k at hk1 hk2 ⊢
    have hge2 : a * (2 * P) < (m + 1) * t := by
      have := Nat.lt_succ_of_le hge
      exact (Nat.div_lt_iff_lt_mul ht).mp this
    apply Nat.div_eq_of_lt_le
    · by_contra hcon
      push_neg at hcon
      have h3 : m + 1 + P ≤ 2 * k * P := by nlinarith
      have h4 : (m + 1) * t + P * t ≤ 2 * k * P * t := by nlinarith
      nlinarith
    · by_contra hcon
      push_neg at hcon
      have h3 : (2 * k + 1) * P ≤ m := by nlinarith
      have h4 : (2 * k + 1) * P * t ≤ m * t := Nat.mul_le_mul_right t h3
      nlinarith

theorem percentCompleted_of_lt (loaded total : Nat) (htotal : 0 < total)
    (hbound : total < 2 ^ 46) (hle : loaded ≤ total) :
    percentCompleted { loaded := loaded, total := some total } =
      JsNumber.finite ((2 * (loaded * 100) + total) / (2 * total)) := by
  have hprod : loaded * 100 < 2 ^ 53 := by
    have : total * 100 < 2 ^ 53 := by omega
    omega
  have hpc : percentCompleted { loaded := loaded, total := some total } =
      JsNumber.finite (mathRound (doubleDiv (doubleOfNat (loaded * 100)) total)) := by
    cases total with
    | zero => exact absurd htotal (Nat.lt_irrefl 0)
    | succ n => rfl
  rw [hpc, doubleOfNat_of_lt _ hprod, mathRound_doubleDiv _ _ htotal hbound (by omega)]

theorem le_of_sorted_getLast (loads : List Nat) (total : Nat)
    (hsorted : loads.Sorted (· ≤ ·)) (hlast : loads.getLast? = some total) :
    ∀ l ∈ loads, l ≤ total := by
  intro l hl
  obtain ⟨init, rfl⟩ : ∃ init, loads = init ++ [total] := by
    have hne : loads ≠ [] := by
      intro h
      simp [h] at hlast
    refine ⟨loads.dropLast, ?_⟩
    have h1 := List.dropLast_append_getLast hne
    rw [List.getLast?_eq_getLast _ hne] at hlast
    injection hlast with hlast
    rw [hlast] at h1
    exact h1.symm
  rcases List.mem_append.mp hl with h | h
  · unfold List.Sorted at hsorted
    exact (List.pairwise_append.mp hsorted).2.2 l h total (by simp)
  · simp at h
    exact Nat.le_of_eq h

theorem percent_mono (total a b : Nat) (h : a ≤ b) :
    (2 * (a * 100) + total) / (2 * total) ≤ (2 * (b * 100) + total) / (2 * total) :=
  Nat.div_le_div_right (by omega)

theorem percent_total (total : Nat) (htotal : 0 < total) :
    (2 * (total * 100) + total) / (2 * total) = 100 := by
  apply Nat.div_eq_of_lt_le <;> omega

theorem formatFileSize_eq_with (bytes : Nat) :
    formatFileSize bytes = formatFileSizeWith floorLog1024 (some bytes) := rfl

theorem showHundredths_eq (h : Nat) :
    showHundredths h = toString (h / 100) ++ fractionText (h % 100) := by
  unfold showHundredths fractionText
  dsimp only
  split_ifs <;> simp [String.append_assoc]

set_option maxRecDepth 100000 in
theorem digits_of_whole : ∀ q, q < 1025 →
    '.' ∉ (toString q).data ∧ digitsValue (toString q).data = some q ∧
      (toString q).data.getLast? ≠ some '.' := by
  decide

set_option maxRecDepth 100000 in
theorem digits_of_fraction : ∀ r, r < 100 → r ≠ 0 →
    (fractionText r).data.head? = some '.' ∧
    '.' ∉ (fractionText r).data.tail ∧
    (digitsValue (fractionText r).data.tail).map (fun f => f * 100) =
      some (r * 10 ^ (fractionText r).data.tail.length) ∧
    (fractionText r).data.getLast? ≠ some '0' ∧
    (fractionText r).data.getLast? ≠ some '.' ∧
    (fractionText r).data.tail ≠ [] := by
  decide

/-- The text `showHundredths` prints for up to 1024.00 reads back as the number of
hundredths, does not end in `.` and, when it has a fraction part, does not end
in `0`. -/
theorem decimalValue_showHundredths (h : Nat) (hh : h ≤ 102400) :
    decimalValue (showHundredths h) = some ((h : ℚ) / 100) ∧
    (showHundredths h).data.getLast? ≠ some '.' ∧
    ('.' ∈ (showHundredths h).data → (showHundredths h).data.getLast? ≠ some '0') := by
  rw [showHundredths_eq]
  have hq : h / 100 < 1025 := by omega
  have hr : h % 100 < 100 := Nat.mod_lt _ (by norm_num)
  have hsum : h = 100 * (h / 100) + h % 100 := (Nat.div_add_mod h 100).symm
  obtain ⟨hdot, hval, hlast⟩ := digits_of_whole (h / 100) hq
  generalize h / 100 = q at hq hsum hdot hval hlast
  generalize h % 100 = r at hr hsum
  by_cases hr0 : r = 0
  · subst hr0
    have hfrac : fractionText 0 = "" := rfl
    rw [hfrac, String.append_empty]
    refine ⟨?_, hlast, fun hmem => absurd hmem hdot⟩
    have hcast : (h : ℚ) / 100 = (q : ℚ) := by
      rw [hsum]
      push_cast
      ring
    unfold decimalValue
    rw [splitChars_of_not_mem '.' _ hdot, hcast]
    simp only [hval]
  · obtain ⟨hhead, htail, hfval, hlast0, hlastdot, hne⟩ := digits_of_fraction r hr hr0
    obtain ⟨fd, hfd⟩ : ∃ fd, (fractionText r).data = '.' :: fd := by
      cases hdata : (fractionText r).data with
      | nil => simp [hdata] at hhead
      | cons c cs =>
        simp only [hdata, List.head?_cons, Option.some.injEq] at hhead
        exact ⟨cs, by rw [hhead]⟩
    rw [hfd] at htail hfval hlast0 hlastdot hne
    simp only [List.tail_cons] at htail hfval hne
    have hdata : (toString q ++ fractionText r).data = (toString q).data ++ '.' :: fd := by
      rw [String.data_append, hfd]
    have hlasteq : ((toString q).data ++ '.' :: fd).getLast? = ('.' :: fd).getLast? := by
      rw [List.getLast?_append_of_ne_nil _ (by simp)]
    refine ⟨?_, ?_, ?_⟩
    · unfold decimalValue
      rw [hdata, splitChars_append '.' _ _ htail, splitChars_of_not_mem '.' _ hdot]
      simp only [List.singleton_append, hval]
      cases hf : digitsValue fd with
      | none => simp [hf] at hfval
      | some f =>
        simp only [hf, Option.map_some', Option.some.injEq] at hfval
        simp only [Option.some.injEq]
        have hpow : ((10 : ℚ) ^ fd.length) ≠ 0 := pow_ne_zero _ (by norm_num)
        have hfq : (f : ℚ) * 100 = (r : ℚ) * 10 ^ fd.length := by exact_mod_cast hfval
        have hcast : (h : ℚ) = 100 * (q : ℚ) + (r : ℚ) := by
          rw [hsum]
          push_cast
          ring
        rw [hcast]
        field_simp
        linear_combination hfq
    · rw [hdata, hlasteq]
      exact hlastdot
    · intro _
      rw [hdata, hlasteq]
      exact hlast0

/-! ## Claims on formatFileSize and the progress percentage -/

/-- C14 (counterexample): for the byte count 2^51, below 2^64, the index
`floor(log1024(b))` is 5 and the five-entry `units` has no unit at that index:
the code prints `2 undefined`.  Just below 1024^5, at 2^50 - 1, the exact index
is 4 while a double computation that yields 5 makes the code print
`1 undefined`. -/
theorem formatFileSize_unit_counterexample :
    (0 < 2 ^ 51 ∧ 2 ^ 51 < 2 ^ 64) ∧
    Nat.log 1024 (2 ^ 51) = 5 ∧
    units = ["B", "KB", "MB", "GB", "TB"] ∧
    units.get? 5 = none ∧
    formatFileSizeWith (fun _ => 5) (some (2 ^ 51)) = "2 undefined" ∧
    Nat.log 1024 (2 ^ 50 - 1) = 4 ∧
    formatFileSizeWith (fun _ => 5) (some (2 ^ 50 - 1)) = "1 undefined" := by
  refine ⟨by decide, ?_, rfl, by decide, by decide, ?_, by decide⟩
  · rw [← floorLog1024_eq]
    decide
  · rw [← floorLog1024_eq]
    decide

/-- C14 (amended): `formatFileSize` returns `0 B` for a zero or absent byte
count, and for every positive integer byte count b below 1024^5 at which the
code's double computation `Math.floor(Math.log(b) / Math.log(1024))` yields
i = floor(log base 1024 of b), it returns `<v> <u>` where u is the unit at
index i in B, KB, MB, GB, TB and v is the decimal numeral of b / 1024^i rounded
half-up to two decimals, without trailing zeros and without a trailing point;
in particular `formatFileSize(1024) = "1 KB"` and
`formatFileSize(1536) = "1.5 KB"` where the computed index is 1. -/
theorem formatFileSizeWith_spec (logIndex : Nat → Nat) (b : Nat) (hpos : 0 < b)
    (hlt : b < 1024 ^ 5) (hindex : logIndex b = Nat.log 1024 b) :
    (formatFileSizeWith logIndex (some 0) = "0 B" ∧ formatFileSizeWith logIndex none = "0 B") ∧
    (∃ v u : String, formatFileSizeWith logIndex (some b) = v ++ " " ++ u ∧
      ["B", "KB", "MB", "GB", "TB"].get? (Nat.log 1024 b) = some u ∧
      decimalValue v =
        some (((⌊(b : ℚ) / ((1024 ^ Nat.log 1024 b : ℕ) : ℚ) * 100 + 1 / 2⌋₊ : ℕ) : ℚ) / 100) ∧
      v.data.getLast? ≠ some '.' ∧
      ('.' ∈ v.data → v.data.getLast? ≠ some '0')) ∧
    (logIndex 1024 = 1 → formatFileSizeWith logIndex (some 1024) = "1 KB") ∧
    (logIndex 1536 = 1 → formatFileSizeWith logIndex (some 1536) = "1.5 KB") := by
  refine ⟨⟨rfl, rfl⟩, ?_, ?_, ?_⟩
  · have hne : ¬ b = 0 := Nat.pos_iff_ne_zero.mp hpos
    have hi : Nat.log 1024 b < 5 := Nat.log_lt_of_lt_pow hne hlt
    have hunit : ∃ u, ["B", "KB", "MB", "GB", "TB"].get? (Nat.log 1024 b) = some u := by
      generalize Nat.log 1024 b = i at hi
      interval_cases i <;> exact ⟨_, rfl⟩
    obtain ⟨u, hu⟩ := hunit
    have hd : 0 < 1024 ^ Nat.log 1024 b := Nat.pow_pos (by norm_num)
    have hb : b < 1024 ^ Nat.log 1024 b * 1024 := by
      have := Nat.lt_pow_succ_log_self (by norm_num : 1 < 1024) b
      rwa [Nat.pow_succ] at this
    have hh : (200 * b + 1024 ^ Nat.log 1024 b) / (2 * 1024 ^ Nat.log 1024 b) ≤ 102400 := by
      apply Nat.le_of_lt_succ
      apply Nat.div_lt_of_lt_mul
      nlinarith
    obtain ⟨hval, hlast, hzero⟩ := decimalValue_showHundredths _ hh
    refine ⟨showHundredths ((200 * b + 1024 ^ Nat.log 1024 b) / (2 * 1024 ^ Nat.log 1024 b)),
      u, ?_, hu, ?_, hlast, hzero⟩
    · have hu2 : units.get? (Nat.log 1024 b) = some u := hu
      simp only [formatFileSizeWith, hne, if_false, hindex, hu2, Option.getD_some]
    · rw [hval, round_hundredths b _ hd]
  · intro h1
    have h2 : (fun _ : Nat => 1) 1024 = logIndex 1024 := h1.symm
    simp only [formatFileSizeWith, ← h2]
    decide
  · intro h1
    have h2 : (fun _ : Nat => 1) 1536 = logIndex 1536 := h1.symm
    simp only [formatFileSizeWith, ← h2]
    decide

/-- With the exact index, 1,234,567 bytes print as `1.18 MB` and 5 MiB as `5 MB`. -/
theorem formatFileSizeWith_spec_witness :
    (0 < 1234567 ∧ 1234567 < 1024 ^ 5) ∧
    formatFileSizeWith floorLog1024 (some 1234567) = "1.18 MB" ∧
    formatFileSizeWith floorLog1024 (some 5242880) = "5 MB" ∧
    (∃ v u : String, formatFileSizeWith floorLog1024 (some 1234567) = v ++ " " ++ u ∧
      ["B", "KB", "MB", "GB", "TB"].get? (Nat.log 1024 1234567) = some u ∧
      decimalValue v =
        some (((⌊((1234567 : ℕ) : ℚ) / ((1024 ^ Nat.log 1024 1234567 : ℕ) : ℚ) * 100 + 1 / 2⌋₊ : ℕ) : ℚ)
          / 100) ∧
      v.data.getLast? ≠ some '.' ∧
      ('.' ∈ v.data → v.data.getLast? ≠ some '0')) :=
  ⟨by decide, by decide, by decide,
   (formatFileSizeWith_spec floorLog1024 1234567 (by decide) (by decide)
      (floorLog1024_eq 1234567)).2.1⟩

/-- C18 (counterexample): for the progress event loaded = 69313213015067 of
total = 70368744177733 the exact quotient lies just below 98.5 and its rounding
is 98, while the double quotient is 98.5 and `Math.round` passes 99 to
`onProgress`. -/
theorem percentCompleted_round_counterexample :
    (0 < 70368744177733 ∧ 69313213015067 ≤ 70368744177733) ∧
    percentCompleted { loaded := 69313213015067, total := some 70368744177733 } =
      JsNumber.finite 99 ∧
    doubleDiv (69313213015067 * 100) 70368744177733 = (197 * 2 ^ 45, 2 ^ 46) ∧
    ⌊((69313213015067 : ℕ) : ℚ) * 100 / ((70368744177733 : ℕ) : ℚ) + 1 / 2⌋₊ = 98 := by
  refine ⟨by decide, by decide, by decide, ?_⟩
  have h : ((69313213015067 : ℕ) : ℚ) * 100 / ((70368744177733 : ℕ) : ℚ) + 1 / 2 =
      ((2 * (69313213015067 * 100) + 70368744177733 : ℕ) : ℚ) /
        ((2 * 70368744177733 : ℕ) : ℚ) := by
    norm_num
  rw [h, Nat.floor_div_eq_div]

/-- C18 (amended): for every progress event with 0 < total < 2^46 and
0 <= loaded <= total, the value passed to `onProgress` is
`round(loaded*100/total)` (half-up), an integer in [0,100] that is 100 when
loaded = total and is non-decreasing in loaded; a non-decreasing sequence of
loaded values ending at total yields a non-decreasing sequence of percents
ending at 100. -/
theorem percentCompleted_spec (loaded total : Nat) (htotal : 0 < total)
    (hbound : total < 2 ^ 46) (hle : loaded ≤ total) :
    ∃ p, percentCompleted { loaded := loaded, total := some total } = JsNumber.finite p ∧
      p = ⌊(loaded : ℚ) * 100 / total + 1 / 2⌋₊ ∧
      p ≤ 100 ∧
      (loaded = total → p = 100) ∧
      (∀ s, (onUploadProgress true [{ loaded := loaded, total := some total }] s).progress =
        s.progress ++ [JsNumber.finite p]) ∧
      (∀ later, loaded ≤ later → later ≤ total →
        ∃ q, percentCompleted { loaded := later, total := some total } = JsNumber.finite q ∧
          p ≤ q) ∧
      (∀ (loads : List Nat) (s : State), loads.Sorted (· ≤ ·) → loads.getLast? = some total →
        ∃ ps : List Nat,
          (onUploadProgress true
            (loads.map (fun l => { loaded := l, total := some total })) s).progress =
            s.progress ++ ps.map JsNumber.finite ∧
          ps.Sorted (· ≤ ·) ∧ ps.getLast? = some 100) := by
  refine ⟨_, percentCompleted_of_lt loaded total htotal hbound hle, ?_, ?_, ?_, ?_, ?_, ?_⟩
  · have htq : (total : ℚ) ≠ 0 := by exact_mod_cast Nat.pos_iff_ne_zero.mp htotal
    have h : (loaded : ℚ) * 100 / total + 1 / 2 =
        ((2 * (loaded * 100) + total : ℕ) : ℚ) / ((2 * total : ℕ) : ℚ) := by
      push_cast
      field_simp
      ring
    rw [h, Nat.floor_div_eq_div]
  · calc (2 * (loaded * 100) + total) / (2 * total)
        ≤ (2 * (total * 100) + total) / (2 * total) := percent_mono total loaded total hle
      _ = 100 := percent_total total htotal
  · intro heq
    rw [heq]
    exact percent_total total htotal
  · intro s
    simp [onUploadProgress, percentCompleted_of_lt loaded total htotal hbound hle]
  · intro later h1 h2
    exact ⟨_, percentCompleted_of_lt later total htotal hbound h2,
      percent_mono total loaded later h1⟩
  · intro loads s hsorted hlast
    have hall := le_of_sorted_getLast loads total hsorted hlast
    refine ⟨loads.map (fun l => (2 * (l * 100) + total) / (2 * total)), ?_, ?_, ?_⟩
    · have hmap : (loads.map (fun l => ({ loaded := l, total := some total } : ProgressEvent))).map
          percentCompleted =
          (loads.map (fun l => (2 * (l * 100) + total) / (2 * total))).map JsNumber.finite := by
        rw [List.map_map, List.map_map]
        apply List.map_congr_left
        intro l hl
        exact percentCompleted_of_lt l total htotal hbound (hall l hl)
      simp only [onUploadProgress, if_true, hmap]
    · unfold List.Sorted at hsorted ⊢
      rw [List.pairwise_map]
      exact hsorted.imp (fun h => percent_mono total _ _ h)
    · rw [List.getLast?_map, hlast]
      simp [percent_total total htotal]

/-- Half of a 2,000-byte upload reports 50; the events 0, 999, 2000 of 2,000
report 0, 50, 100. -/
theorem percentCompleted_spec_witness :
    (0 < 2000 ∧ 2000 < 2 ^ 46 ∧ 1000 ≤ 2000) ∧
    (∃ p, percentCompleted { loaded := 1000, total := some 2000 } = JsNumber.finite p ∧
      p = ⌊((1000 : ℕ) : ℚ) * 100 / ((2000 : ℕ) : ℚ) + 1 / 2⌋₊ ∧ p ≤ 100) ∧
    (onUploadProgress true
      [{ loaded := 0, total := some 2000 }, { loaded := 999, total := some 2000 },
       { loaded := 2000, total := some 2000 }] {}).progress =
      [JsNumber.finite 0, JsNumber.finite 50, JsNumber.finite 100] := by
  obtain ⟨p, h1, h2, h3, -⟩ :=
    percentCompleted_spec 1000 2000 (by decide) (by decide) (by decide)
  exact ⟨by decide, ⟨p, h1, h2, h3⟩, by decide⟩

/-! ## Claims on getPreviewUrl -/

/-- For a file reference with a filename, `getPreviewUrl` returns the bare view
URL, without parsing it, when `withAuth` is false or when `token` or
`sessionId` is missing or empty. -/
theorem getPreviewUrl_bare (apiUrl : Option String) (parseUrl : String → Option Url)
    (filename : String) (token sessionId : Option String) (withAuth : Bool)
    (hname : filename ≠ "")
    (hbare : withAuth = false ∨ isFalsy token = true ∨ isFalsy sessionId = true) :
    getPreviewUrl apiUrl parseUrl (some { filename := some filename }) token sessionId withAuth =
      Except.ok (interpolate apiUrl ++ "/api/files/view/" ++ filename) := by
  rcases hbare with h | h | h
  · simp [getPreviewUrl, hname, h]
  · cases withAuth <;> simp [getPreviewUrl, hname, h]
  · cases withAuth <;> simp [getPreviewUrl, hname, h]

/-- With `withAuth`, a token and a session id, `getPreviewUrl` appends
`encodeURIComponent` of each to `searchParams`, which serializes the values a
second time. -/
theorem getPreviewUrl_auth (apiUrl : Option String) (parseUrl : String → Option Url)
    (filename token sessionId : String) (url : Url)
    (hname : filename ≠ "") (htoken : token ≠ "") (hsession : sessionId ≠ "")
    (hparse : parseUrl (interpolate apiUrl ++ "/api/files/view/" ++ filename) = some url)
    (hquery : url.searchParams = []) :
    getPreviewUrl apiUrl parseUrl (some { filename := some filename }) (some token)
        (some sessionId) true =
      Except.ok (url.base ++ "?" ++
        ("token=" ++ formSerialize (encodeURIComponent token) ++ "&" ++
          ("sessionId=" ++ formSerialize (encodeURIComponent sessionId))) ++ url.hash) := by
  have hformat : serializeParams
      [("token", encodeURIComponent token), ("sessionId", encodeURIComponent sessionId)] =
      "token=" ++ formSerialize (encodeURIComponent token) ++ "&" ++
        ("sessionId=" ++ formSerialize (encodeURIComponent sessionId)) := by
    have h1 : formSerialize "token" = "token" := by decide
    have h2 : formSerialize "sessionId" = "sessionId" := by decide
    simp only [serializeParams, List.map_cons, List.map_nil, h1, h2]
    rfl
  have hinterp : ∀ v : String, interpolate (some v) = v := fun _ => rfl
  simp [getPreviewUrl, hname, isFalsy, htoken, hsession, hparse, hinterp, Url.append,
    Url.toString, hquery, hformat]

/-- C16 (defect in the code): for the file `doc.pdf`, the token `a+b` and the
session id `s1`, the `token` query value of the URL returned by `getPreviewUrl`
is `a%252Bb`, not the percent-encoding `a%2Bb` of the token:
`encodeURIComponent` is applied and `searchParams.append` encodes its result
again, so percent-decoding the value once yields `a%2Bb` and not `a+b`. -/
theorem getPreviewUrl_double_encodes :
    getPreviewUrl (some "https://api.example") plainUrl (some { filename := some "doc.pdf" })
        (some "a+b") (some "s1") true =
      Except.ok "https://api.example/api/files/view/doc.pdf?token=a%252Bb&sessionId=s1" ∧
    encodeURIComponent "a+b" = "a%2Bb" ∧
    formSerialize (encodeURIComponent "a+b") = "a%252Bb" ∧
    percentDecode "a%252Bb".data = stringBytes "a%2Bb" ∧
    percentDecode "a%252Bb".data ≠ stringBytes "a+b" ∧
    percentDecode "a%2Bb".data = stringBytes "a+b" := by
  decide

end FileService
